import Mathlib

/-!
Verification of the samba-shares configuration engine.

Shallow embedding of the core of the `glfos-samba-shares` repository
(`src/samba/share_config.rs`, `src/samba/remote_share_config.rs`,
`src/samba/mount_operations.rs`) and proofs about the claims of its
specification.

Strings are modelled as `List Char` (`Str`), so that the Rust `str`
operations used by the sources (`trim`, `split`, `contains`, `replace`,
`starts_with`, …) become executable list functions amenable to induction.
Rust's `char::is_whitespace` is modelled by Lean's `Char.isWhitespace`
(the ASCII fragment, which is the fragment the configuration texts use).
-/

namespace SambaShares

/-- Rust strings, modelled as lists of characters. -/
abbrev Str := List Char

/-- Drop the longest suffix all of whose characters satisfy `p`. -/
def dropEnd (p : Char → Bool) (l : Str) : Str := (l.reverse.dropWhile p).reverse

/-- `str::trim_start` (drop leading whitespace). -/
def ltrim (l : Str) : Str := l.dropWhile Char.isWhitespace

/-- `str::trim_end` (drop trailing whitespace). -/
def rtrim (l : Str) : Str := dropEnd Char.isWhitespace l

/-- `str::trim` (drop whitespace at both ends). -/
def trimC (l : Str) : Str := rtrim (ltrim l)

/-- `str::trim_end_matches c` (drop every trailing occurrence of `c`). -/
def trimEndMatches (c : Char) (l : Str) : Str := dropEnd (· = c) l

/-- `str::trim_matches c` (drop every leading and trailing occurrence of `c`). -/
def trimMatches (c : Char) (l : Str) : Str := dropEnd (· = c) (l.dropWhile (· = c))

/-- `str::contains` for a substring pattern. -/
def containsS (l pat : Str) : Bool := decide (pat <:+: l)

/-- `str::to_lowercase` (ASCII fragment). -/
def lowerC (l : Str) : Str := l.map Char.toLower

/-! ## Error classifier (`mount_operations.rs`, `parse_mount_error` /
`parse_umount_error`) -/

/-- `parse_mount_error` from `mount_operations.rs` lines 357-375: the
ordered case-insensitive substring match over the raw stderr text. -/
def parse_mount_error (stderr : Str) : Str :=
  let lower := lowerC stderr
  if containsS lower "permission denied".data || containsS lower "access denied".data then
    "Permission denied. Check your credentials or run with sudo.".data
  else if containsS lower "connection refused".data || containsS lower "could not resolve".data then
    "Connection refused. Server may be offline or unreachable.".data
  else if containsS lower "already mounted".data || containsS lower "busy".data then
    "Mount point is already in use or mounted.".data
  else if containsS lower "no such file or directory".data then
    "Server or share not found. Check the remote URL.".data
  else if containsS lower "invalid argument".data then
    "Invalid mount options. Check your configuration.".data
  else if containsS lower "host is down".data then
    "Host is unreachable. Check network connectivity.".data
  else
    "Mount failed: ".data ++ trimC stderr

/-- `parse_umount_error` from `mount_operations.rs` lines 378-390. -/
def parse_umount_error (stderr : Str) : Str :=
  let lower := lowerC stderr
  if containsS lower "not mounted".data then
    "The specified path is not currently mounted.".data
  else if containsS lower "busy".data || containsS lower "target is busy".data then
    "Mount point is busy. Close any programs using files from this share.".data
  else if containsS lower "permission denied".data then
    "Permission denied. You may need to run with sudo.".data
  else
    "Unmount failed: ".data ++ trimC stderr

/-- One row of the classifier table of the specification: a list of
alternative patterns together with the user-facing category text. -/
abbrev ClassRow := List Str × Str

/-- The specification's classifier: lower-case the message, return the
category of the first row one of whose patterns occurs as a substring,
and otherwise the generic label followed by the trimmed original text.
(This definition follows the words of the spec, for comparison with the
functions taken from the source.) -/
def classifySpec (table : List ClassRow) (generic : Str) (stderr : Str) : Str :=
  let lower := lowerC stderr
  match table.find? (fun row => row.1.any (fun pat => containsS lower pat)) with
  | some row => row.2
  | none => generic ++ trimC stderr

/-- The fixed ordered table of the mount-error classifier, as the spec
states it. -/
def mountTable : List ClassRow :=
  [ (["permission denied".data, "access denied".data],
     "Permission denied. Check your credentials or run with sudo.".data),
    (["connection refused".data, "could not resolve".data],
     "Connection refused. Server may be offline or unreachable.".data),
    (["already mounted".data, "busy".data],
     "Mount point is already in use or mounted.".data),
    (["no such file or directory".data],
     "Server or share not found. Check the remote URL.".data),
    (["invalid argument".data],
     "Invalid mount options. Check your configuration.".data),
    (["host is down".data],
     "Host is unreachable. Check network connectivity.".data) ]

/-- The fixed ordered table of the unmount-error classifier. -/
def umountTable : List ClassRow :=
  [ (["not mounted".data],
     "The specified path is not currently mounted.".data),
    (["busy".data, "target is busy".data],
     "Mount point is busy. Close any programs using files from this share.".data),
    (["permission denied".data],
     "Permission denied. You may need to run with sudo.".data) ]

/-! ## Mount planner (`mount_operations.rs`, `mount_share`)

`mount_share` performs filesystem and process effects.  The embedding
makes the effects explicit: the environment (`MountEnv`) fixes the
outcome of each OS interaction (the live mount table as read by
`list_cifs_mounts`, the success of directory creation, of writing the
credentials file, of setting its permissions, of spawning `mount`, and
the exit status and stderr of `mount`), and the function returns its
`Result` together with the ordered trace of effects it performed.
Paths are compared as strings (`Path::new(a) == Path::new(b)` on the
textual targets involved). -/

/-- `validate_remote_url` from `mount_operations.rs` lines 319-334. -/
def validate_remote_url (url : Str) : Except Str Unit :=
  if ¬ ("//".data  <+: url) then
    .error "Remote URL must start with '//' (e.g., //server/share)".data
  else if url.count '/' < 3 then
    .error "Remote URL must include server and share name (e.g., //server/share)".data
  else if ';' ∈ url ∨ '&' ∈ url ∨ '|' ∈ url ∨ (Char.ofNat 96) ∈ url then
    .error "Remote URL contains invalid characters".data
  else
    .ok ()

/-- `validate_mount_point` from `mount_operations.rs` lines 337-354
(`Path::is_absolute` on Unix means the path has a root, i.e. begins
with `/`). -/
def validate_mount_point (path : Str) : Except Str Unit :=
  if ¬ ("/".data <+: path) then
    .error "Mount point must be an absolute path".data
  else if ';' ∈ path ∨ '&' ∈ path ∨ '|' ∈ path ∨ (Char.ofNat 96) ∈ path then
    .error "Mount point path contains invalid characters".data
  else
    .ok ()

/-- `Vec::<String>::join(",")`. -/
def joinComma (l : List Str) : Str := List.intercalate ",".data l

/-- The effects `mount_share` can perform, in trace order. -/
inductive MountEvent where
  /-- `fs::create_dir_all(mount_point)` -/
  | createDir (path : Str)
  /-- `fs::write` of the credentials file (the file now exists on disk) -/
  | createCreds (path : Str)
  /-- `fs::set_permissions(path, 0o600)` -/
  | setPerms (path : Str)
  /-- invocation of the OS `mount -t cifs <url> <mp> -o <opts>` command -/
  | runMount (url mp : Str) (opts : Str)
  /-- `fs::remove_file` of the credentials file (the `Drop` of `CredentialsFile`) -/
  | removeCreds (path : Str)
deriving DecidableEq, Repr

/-- Outcomes of the OS interactions of one `mount_share` call. -/
structure MountEnv where
  /-- targets of the live CIFS mounts as returned by `list_cifs_mounts` -/
  mounts : List Str
  /-- does the mount-point directory already exist? -/
  mountPointExists : Bool
  /-- does `fs::create_dir_all` succeed? -/
  createDirOk : Bool
  /-- does `fs::write` of the credentials file succeed (file then exists)? -/
  writeCredsOk : Bool
  /-- does `fs::set_permissions` on the credentials file succeed? -/
  setPermsOk : Bool
  /-- the unique `/tmp/smb_creds_<pid>_<timestamp>` path chosen -/
  credsPath : Str
  /-- does spawning the `mount` command succeed? -/
  spawnOk : Bool
  /-- does the `mount` command exit with status zero? -/
  mountExitOk : Bool
  /-- stderr text of the `mount` command -/
  stderr : Str

/-- `is_mounted` from `mount_operations.rs` lines 213-219: membership of
the mount point among the targets of the live CIFS mount table. -/
def is_mounted (env : MountEnv) (mount_point : Str) : Bool :=
  env.mounts.any (· == mount_point)

/-- `MountOptions` (uid/gid resolved to strings, plus extra options). -/
structure MountOptions where
  uid : Str
  gid : Str
  additional_opts : List Str

/-- `CredentialsFile::new` from `mount_operations.rs` lines 49-67,
with the trace of files it creates.  When `fs::write` fails no file
exists; when `fs::set_permissions` fails the file has already been
written (and, since the guard value is never constructed, its `Drop`
never runs). -/
def credentialsFile_new (env : MountEnv) : Except Str Unit × List MountEvent :=
  if ¬ env.writeCredsOk then
    (.error "Failed to create credentials file".data, [])
  else if ¬ env.setPermsOk then
    (.error "Failed to set credentials file permissions".data,
     [.createCreds env.credsPath])
  else
    (.ok (), [.createCreds env.credsPath, .setPerms env.credsPath])

/-- `mount_share` from `mount_operations.rs` lines 234-288, returning
its `Result` together with the ordered trace of the effects performed.
The `Drop` of the `CredentialsFile` guard at every exit of the Rust
scope after its successful construction is rendered by the explicit
`removeCreds` event on each of those paths. -/
def mount_share (env : MountEnv) (remote_url mount_point _username _password : Str)
    (options : MountOptions) : Except Str Unit × List MountEvent :=
  match validate_remote_url remote_url with
  | .error e => (.error e, [])
  | .ok () =>
  match validate_mount_point mount_point with
  | .error e => (.error e, [])
  | .ok () =>
  if is_mounted env mount_point then
    (.error ("Mount point ".data ++ mount_point ++ " is already mounted".data), [])
  else
    -- create mount point directory if it doesn't exist
    let dirTrace : List MountEvent :=
      if env.mountPointExists then [] else [.createDir mount_point]
    if ¬ env.mountPointExists ∧ ¬ env.createDirOk then
      (.error "Failed to create mount point directory".data, dirTrace)
    else
      -- create temporary credentials file (auto-deleted on drop)
      match credentialsFile_new env with
      | (.error e, credsTrace) => (.error e, dirTrace ++ credsTrace)
      | (.ok (), credsTrace) =>
        let mount_opts : List Str :=
          [ "credentials=".data ++ env.credsPath,
            "uid=".data ++ options.uid,
            "gid=".data ++ options.gid ] ++ options.additional_opts
        let runTrace := dirTrace ++ credsTrace ++
          [.runMount remote_url mount_point (joinComma mount_opts)]
        if ¬ env.spawnOk then
          (.error "Failed to execute mount command".data,
           runTrace ++ [.removeCreds env.credsPath])
        else if ¬ env.mountExitOk then
          (.error (parse_mount_error env.stderr),
           runTrace ++ [.removeCreds env.credsPath])
        else
          (.ok (), runTrace ++ [.removeCreds env.credsPath])

/-! ## Remote share configuration (`remote_share_config.rs`)

The remote configuration functions edit the file as one text (no line
splitting): `write` inserts before the last `}` of the content, `update`
and `delete` locate the first match of the regex
`(?s)fileSystems\."<name>"\s*=\s*\{.*?\};` (leftmost match, greedy
whitespace, lazy body ending at the first `};`) and splice the
replacement into the matched span. -/

/-- The record type of `remote_share_config.rs`. -/
structure RemoteSambaShareConfig where
  name : Str
  remote_path : Str
  fs_type : Str
  option_credentials : Str
  force_user : Str
  force_group : Str
deriving DecidableEq, Repr

/-- The mount-options list built by `RemoteSambaShareConfig::write` and
`update` (`remote_share_config.rs` lines 59-74 and 129-144): credentials
first when non-empty, the five fixed automount/timeout tokens, then
uid/gid when non-empty; every token carries its own quotes. -/
def buildRemoteOptions (s : RemoteSambaShareConfig) : List Str :=
  (if s.option_credentials.isEmpty then []
   else ["\"credentials=".data ++ s.option_credentials ++ ['"']]) ++
  [ "\"x-systemd.automount\"".data,
    "\"noauto\"".data,
    "\"x-systemd.idle-timeout=300\"".data,
    "\"x-systemd.device-timeout=10s\"".data,
    "\"x-systemd.mount-timeout=10s\"".data ] ++
  (if s.force_user.isEmpty then [] else ["\"uid=".data ++ s.force_user ++ ['"']]) ++
  (if s.force_group.isEmpty then [] else ["\"gid=".data ++ s.force_group ++ ['"']])

/-- `Vec::<String>::join("\n    ")`. -/
def joinIndented : List Str → Str
  | [] => []
  | [l] => l
  | l :: ls => l ++ "\n    ".data ++ joinIndented ls

/-- The entry text built by `RemoteSambaShareConfig::write`
(`remote_share_config.rs` lines 77-91), ending in two newlines. -/
def remoteEntryText (s : RemoteSambaShareConfig) : Str :=
  "fileSystems.\"".data ++ s.name ++ "\" = \x7b\n  device = \"".data ++ s.remote_path ++
  "\";\n  fsType = \"".data ++ s.fs_type ++ "\";\n  options = [\n    ".data ++
  joinIndented (buildRemoteOptions s) ++ "\n  ];\n\x7d;\n\n".data

/-- The replacement text built by `RemoteSambaShareConfig::update`
(`remote_share_config.rs` lines 147-159): same block, no trailing
newlines. -/
def remoteReplacementText (s : RemoteSambaShareConfig) : Str :=
  "fileSystems.\"".data ++ s.name ++ "\" = \x7b\n  device = \"".data ++ s.remote_path ++
  "\";\n  fsType = \"".data ++ s.fs_type ++ "\";\n  options = [\n    ".data ++
  joinIndented (buildRemoteOptions s) ++ "\n  ];\n\x7d;".data

/-- `str::rfind(c)`: index of the last occurrence of `c`. -/
def rfindChar (c : Char) (l : Str) : Option Nat :=
  match l.reverse.findIdx? (· = c) with
  | some j => some (l.length - 1 - j)
  | none => none

/-- `RemoteSambaShareConfig::write` (`remote_share_config.rs` lines
55-105): insert the new entry text immediately before the last `}` of
the file content. -/
def RemoteSambaShareConfig.write (content : Str) (s : RemoteSambaShareConfig) :
    Except Str Str :=
  match rfindChar '}' content with
  | some i => .ok (content.take i ++ remoteEntryText s ++ content.drop i)
  | none => .error "Could not find insertion point in config file".data

/-- The index of the first position of `l` at which `pat` occurs. -/
def findSubAux (pat : Str) : Str → Nat → Option Nat
  | [], i => if pat = [] then some i else none
  | c :: rest, i =>
    if pat <+: (c :: rest) then some i else findSubAux pat rest (i + 1)

/-- Length of the regex match `fileSystems\."<name>"\s*=\s*\{.*?\};`
starting exactly at the head of `l` (`None` if no match starts here).
`\s*` is greedy whitespace, `.*?\};` ends the body at the first `};`. -/
def matchFSLen (name : Str) (l : Str) : Option Nat :=
  let lit := "fileSystems.\"".data ++ name ++ "\"".data
  if lit <+: l then
    let l1 := l.drop lit.length
    let l2 := l1.dropWhile Char.isWhitespace
    match l2 with
    | '=' :: l3 =>
      let l4 := l3.dropWhile Char.isWhitespace
      match l4 with
      | '{' :: l5 =>
        match findSubAux "\x7d;".data l5 0 with
        | some k =>
          some (lit.length + (l1.length - l2.length) + 1 + (l3.length - l4.length) + 1 + k + 2)
        | none => none
      | _ => none
    | _ => none
  else none

/-- The leftmost match of the `fileSystems."<name>"` entry regex in
`content`: the start index and the end index (exclusive) of the matched
span. -/
def findFSAux (name : Str) : Str → Nat → Option (Nat × Nat)
  | [], _ => none
  | c :: rest, i =>
    match matchFSLen name (c :: rest) with
    | some len => some (i, i + len)
    | none => findFSAux name rest (i + 1)

/-- Leftmost regex match over the whole content. -/
def findFS (name : Str) (content : Str) : Option (Nat × Nat) := findFSAux name content 0

/-- `RemoteSambaShareConfig::delete` (`remote_share_config.rs` lines
175-199): remove the first matched entry span together with the
trailing `[\n\r]*` newlines. -/
def RemoteSambaShareConfig.delete (content : Str) (name : Str) : Except Str Str :=
  match findFS name content with
  | some (i, j) =>
    let j2 := j + ((content.drop j).takeWhile (fun c => c = '\n' ∨ c = '\r')).length
    .ok (content.take i ++ content.drop j2)
  | none => .error ("Could not find filesystem entry for '".data ++ name ++ "'".data)

/-- `RemoteSambaShareConfig::update` (`remote_share_config.rs` lines
108-172): replace the first matched span in place when the name is
unchanged, and otherwise delete the old entry and append the new one. -/
def RemoteSambaShareConfig.update (content : Str) (old : Str)
    (s : RemoteSambaShareConfig) : Except Str Str :=
  if old = s.name then
    match findFS old content with
    | some (i, j) => .ok (content.take i ++ remoteReplacementText s ++ content.drop j)
    | none => .error ("Could not find filesystem entry for '".data ++ old ++ "'".data)
  else
    match RemoteSambaShareConfig.delete content old with
    | .ok c2 => RemoteSambaShareConfig.write c2 s
    | .error e => .error e

/-- The record constructed for one `fileSystems` entry by
`find_filesystem_entries` (`remote_share_config.rs` lines 256-288):
entries whose `fsType` is not `cifs` are skipped (`none`), the
`credentials=`/`uid=`/`gid=` tokens of the options list populate the
dedicated fields, and absent `uid`/`gid` default to `1000`/`100`. -/
def mkRemoteShare (mount_point device fs_type : Str) (options_list : List Str) :
    Option RemoteSambaShareConfig :=
  if fs_type = "cifs".data then
    let credentials := ((options_list.find? (fun opt => "credentials=".data <+: opt)).map
      (fun opt => opt.drop "credentials=".data.length)).getD []
    let uid := ((options_list.find? (fun opt => "uid=".data <+: opt)).map
      (fun opt => opt.drop "uid=".data.length)).getD "1000".data
    let gid := ((options_list.find? (fun opt => "gid=".data <+: opt)).map
      (fun opt => opt.drop "gid=".data.length)).getD "100".data
    some ⟨mount_point, device, fs_type, credentials, uid, gid⟩
  else
    none

/-! ## Mount-state reconciliation (`mount_operations.rs`, `list_all_shares`)

`list_all_shares` reads the configured records (`RemoteSambaShareConfig::load_all`)
and the live mount table (`list_cifs_mounts`); the embedding takes both
as inputs and models the combination logic of lines 83-134. -/

/-- The mounted-share view of `mount_operations.rs`. -/
structure MountedShare where
  source : Str
  target : Str
  fstype : Str
  options : Str
  is_mounted : Bool
deriving DecidableEq, Repr

/-- The `HashMap` collected from the mounted list keyed by target
(`mount_operations.rs` lines 94-97): on duplicate targets the later
entry wins, so lookup finds the last matching element. -/
def hashGet (mounted : List MountedShare) (t : Str) : Option MountedShare :=
  mounted.reverse.find? (fun m => m.target = t)

/-- The options string synthesized from a configured record when it is
not live-mounted (`mount_operations.rs` lines 114-120). -/
def buildConfigOptions (c : RemoteSambaShareConfig) : Str :=
  joinComma
    [ "credentials=".data ++ c.option_credentials,
      "uid=".data ++ c.force_user,
      "gid=".data ++ c.force_group ]

/-- One step of the trailing loop of `list_all_shares`
(`mount_operations.rs` lines 127-131): append a live mount unless an
entry with its target is already present. -/
def extStep (res : List MountedShare) (m : MountedShare) : List MountedShare :=
  if res.any (fun s => s.target = m.target) then res else res ++ [m]

/-- `list_all_shares` (`mount_operations.rs` lines 83-134) over given
configured records and live mount table. -/
def list_all_shares (configured : List RemoteSambaShareConfig)
    (mounted : List MountedShare) : List MountedShare :=
  let confPart := configured.map (fun c =>
    { source := c.remote_path
      target := c.name
      fstype := c.fs_type
      options := match hashGet mounted c.name with
                 | some m => m.options
                 | none => buildConfigOptions c
      is_mounted := (hashGet mounted c.name).isSome : MountedShare })
  mounted.foldl extStep confPart

/-- The bad-character check of the validators. -/
def hasShellMeta (l : Str) : Prop := ';' ∈ l ∨ '&' ∈ l ∨ '|' ∈ l ∨ (Char.ofNat 96) ∈ l

instance (l : Str) : Decidable (hasShellMeta l) := by unfold hasShellMeta; infer_instance

/-! ## Local share configuration (`share_config.rs`)

The configuration file is handled line-wise in the source:
`BufReader::lines()` to read, `Vec::insert`/`Vec::drain` to edit,
`join("\n")` to write back.  `rustLines`/`joinLines` model the two
conversions, and the load/write/update functions are stated over the
line list (`load_all`, `write`, `update`) with `…_text` wrappers
composing with the conversions, so the byte-level behaviour of the
source is `…_text`. -/

/-- Drop a single trailing carriage return (the `\r` pop of
`BufRead::lines`). -/
def stripCR (l : Str) : Str := if l.getLast? = some '\r' then l.dropLast else l

/-- Worker for `rustLines` (accumulates the current line reversed). -/
def rustLinesAux (cur : Str) : Str → List Str
  | [] => if cur.isEmpty then [] else [cur.reverse]
  | c :: rest =>
    if c = '\n' then stripCR cur.reverse :: rustLinesAux [] rest
    else rustLinesAux (c :: cur) rest

/-- `BufRead::lines()`: split on `\n`, dropping the terminator and a
carriage return immediately before it; a final segment is produced only
if non-empty. -/
def rustLines (text : Str) : List Str := rustLinesAux [] text

/-- `Vec::<String>::join("\n")`. -/
def joinLines : List Str → Str
  | [] => []
  | [l] => l
  | l :: ls => l ++ '\n' :: joinLines ls

/-- The record type of `share_config.rs`. -/
structure SambaShareConfig where
  name : Str
  path : Str
  browsable : Bool
  read_only : Bool
  guest_ok : Bool
  force_user : Str
  force_group : Str
deriving DecidableEq, Repr

/-- The property map collected inside a share block (`HashMap` in the
source; inserting prepends, so lookup of the first match gives the
overwrite semantics of `HashMap::insert`/`get`). -/
abbrev Props := List (Str × Str)

/-- Construction of a share record from the collected properties:
`share_config.rs` lines 125-148 (the body of the share-closing branch of
`load_all`), including the documented defaults for absent properties. -/
def mkShare (name : Str) (props : Props) : SambaShareConfig where
  name := name
  path := (props.lookup "path".data).getD []
  browsable := ((props.lookup "browseable".data).map (· == "yes".data)).getD true
  read_only := ((props.lookup "read only".data).map (· == "yes".data)).getD false
  guest_ok := ((props.lookup "guest ok".data).map (· == "yes".data)).getD false
  force_user := (props.lookup "force user".data).getD []
  force_group := (props.lookup "force group".data).getD []

/-- The loop state of `SambaShareConfig::load_all` (`broke` renders the
`break` of the Rust loop: every later line leaves the state unchanged). -/
structure LoadState where
  in_samba : Bool
  in_settings : Bool
  in_share : Bool
  cur_name : Str
  cur_props : Props
  section_braces : Int
  share_braces : Int
  shares : List SambaShareConfig
  broke : Bool
deriving Repr

/-- The initial loop state of `load_all`. -/
def initLoad : LoadState := ⟨false, false, false, [], [], 0, 0, [], false⟩

/-- One iteration of the line loop of `SambaShareConfig::load_all`
(`share_config.rs` lines 61-168), translated branch by branch. -/
def loadStep (st : LoadState) (line : Str) : LoadState :=
  if st.broke then st else
  let trimmed := trimC line
  if containsS trimmed "services.samba".data ∧ '=' ∈ trimmed ∧ '{' ∈ trimmed then
    { st with in_samba := true }
  else if st.in_samba ∧ ¬ st.in_settings ∧ "settings".data <+: trimmed ∧ '=' ∈ trimmed then
    { st with in_settings := true }
  else if st.in_settings then
    if ¬ st.in_share ∧ '=' ∈ trimmed ∧ '{' ∈ trimmed then
      { st with cur_name := trimC ((trimmed.filter (· ≠ '"')).takeWhile (· ≠ '=')),
                in_share := true,
                share_braces := (trimmed.count '{' : Int) }
    else if st.in_share then
      let props' : Props :=
        if '=' ∈ trimmed ∧ ¬ containsS trimmed "= \x7b".data then
          (trimMatches '"' (trimC (trimmed.takeWhile (· ≠ '='))),
           trimMatches '"' (trimEndMatches ';' (trimC ((trimmed.dropWhile (· ≠ '=')).tail))))
            :: st.cur_props
        else st.cur_props
      let braces' := st.share_braces - (trimmed.count '}' : Int)
      if braces' ≤ 0 then
        { st with in_share := false,
                  shares := if trimC st.cur_name ≠ "global".data
                            then st.shares ++ [mkShare st.cur_name props']
                            else st.shares,
                  cur_props := [], cur_name := [], share_braces := braces' }
      else
        { st with cur_props := props', share_braces := braces' }
    else
      let sb := st.section_braces + (trimmed.count '{' : Int) - (trimmed.count '}' : Int)
      if sb ≤ 0 ∧ (trimmed = "\x7d;".data ∨ trimmed = "\x7d".data) then
        { st with section_braces := sb, broke := true }
      else
        { st with section_braces := sb }
  else st

/-- `SambaShareConfig::load_all` over the list of lines of the file. -/
def SambaShareConfig.load_all (lines : List Str) : List SambaShareConfig :=
  (lines.foldl loadStep initLoad).shares

/-- `SambaShareConfig::load_all` from the file text. -/
def SambaShareConfig.load_all_text (text : Str) : List SambaShareConfig :=
  SambaShareConfig.load_all (rustLines text)

/-- The `yes`/`no` rendering of booleans used by the serializer. -/
def ynStr (b : Bool) : Str := if b then "yes".data else "no".data

/-- The serialized entry text of `SambaShareConfig::write`/`update`
(`share_config.rs` lines 187-203 and 374-390), as its list of lines. -/
def serializeLines (s : SambaShareConfig) : List Str :=
  [ "    \"".data ++ s.name ++ "\" = \x7b".data,
    "      path = \"".data ++ s.path ++ "\";".data,
    "      browseable = ".data ++ ynStr s.browsable ++ ";".data,
    "      \"read only\" = ".data ++ ynStr s.read_only ++ ";".data,
    "      \"guest ok\" = ".data ++ ynStr s.guest_ok ++ ";".data,
    "      \"force user\" = \"".data ++ s.force_user ++ "\";".data,
    "      \"force group\" = \"".data ++ s.force_group ++ "\";".data,
    "    \x7d;".data ]

/-- The scan state of the insert-position search of
`SambaShareConfig::write` (`share_config.rs` lines 205-243). -/
structure WScan where
  found_settings : Bool
  insert_index : Option Nat
  settings_braces : Int
  in_samba : Bool
  in_settings : Bool

/-- The insert-position search of `SambaShareConfig::write`: note that,
unlike in `load_all`, the `settings`-detection branch is not guarded by
`!in_settings` in the source. -/
def writeScan : WScan → Nat → List Str → WScan
  | st, _, [] => st
  | st, i, line :: rest =>
    let trimmed := trimC line
    if containsS trimmed "services.samba".data ∧ '=' ∈ trimmed ∧ '{' ∈ trimmed then
      writeScan { st with in_samba := true } (i+1) rest
    else if st.in_samba ∧ "settings".data <+: trimmed ∧ '=' ∈ trimmed then
      writeScan { st with found_settings := true, in_settings := true,
                          settings_braces := (trimmed.count '{' : Int) } (i+1) rest
    else if st.in_samba ∧ st.in_settings then
      let sb := st.settings_braces + (trimmed.count '{' : Int) - (trimmed.count '}' : Int)
      if sb = 0 ∧ trimmed = "\x7d;".data then
        { st with insert_index := some i, settings_braces := sb }
      else writeScan { st with settings_braces := sb } (i+1) rest
    else writeScan st (i+1) rest

/-- The synthesized `services.samba` section of `SambaShareConfig::write`
(`share_config.rs` lines 260-284), emitted when no settings section
exists, as its list of lines (the template begins with a newline, hence
the leading empty line). -/
def sambaSectionLines (s : SambaShareConfig) : List Str :=
  [ "".data,
    "  services.samba = \x7b".data,
    "    enable = true;".data,
    "    securityType = \"user\";".data,
    "    openFirewall = true;".data,
    "    settings = \x7b".data,
    "        global = \x7b".data,
    "          \"workgroup\" = \"WORKGROUP\";".data,
    "          \"server string\" = \"smbnix\";".data,
    "          \"netbios name\" = \"smbnix\";".data,
    "          \"security\" = \"user\";".data,
    "          #\"use sendfile\" = \"yes\";".data,
    "          #\"max protocol\" = \"smb2\";".data,
    "          # note: localhost is the ipv6 localhost ::1".data,
    "          \"hosts allow\" = \"192.168.0. 127.0.0.1 localhost\";".data,
    "          \"hosts deny\" = \"0.0.0.0/0\";".data,
    "          \"guest account\" = \"nobody\";".data,
    "          \"map to guest\" = \"bad user\";".data,
    "        \x7d;".data ]
  ++ serializeLines s
  ++ [ "    \x7d;".data, "  \x7d;".data ]

/-- The reverse search for the last line whose trimmed text is `}`
(`share_config.rs` lines 250-256). -/
def lastBraceIdx (lines : List Str) : Option Nat :=
  match lines.reverse.findIdx? (fun l => trimC l = "\x7d".data) with
  | some j => some (lines.length - 1 - j)
  | none => none

/-- `SambaShareConfig::write` (`share_config.rs` lines 175-306) over the
list of lines of the file. -/
def SambaShareConfig.write (lines : List Str) (s : SambaShareConfig) :
    Except Str (List Str) :=
  let scan := writeScan ⟨false, none, 0, false, false⟩ 0 lines
  if ¬ scan.found_settings then
    match lastBraceIdx lines with
    | some idx => .ok (lines.take idx ++ sambaSectionLines s ++ lines.drop idx)
    | none => .error "Could not find suitable location to add services.samba section".data
  else
    match scan.insert_index with
    | some idx => .ok (lines.take idx ++ serializeLines s ++ lines.drop idx)
    | none => .error "Could not find end of services.samba.settings section".data

/-- `SambaShareConfig::write` from text to text. -/
def SambaShareConfig.write_text (text : Str) (s : SambaShareConfig) : Except Str Str :=
  (SambaShareConfig.write (rustLines text) s).map joinLines

/-- `str::split('"').nth(1)`: the text between the first and second
quote (present whenever the string contains a quote). -/
def splitQuote1 (l : Str) : Option Str :=
  if '"' ∈ l then some (((l.dropWhile (· ≠ '"')).tail).takeWhile (· ≠ '"')) else none

/-- The scan state of the target-span search of
`SambaShareConfig::update` (`share_config.rs` lines 320-367). -/
structure UScan where
  in_samba : Bool
  in_settings : Bool
  in_target : Bool
  start : Option Nat
  braces : Int

/-- The target-span search of `SambaShareConfig::update`: returns the
start and end line indices of the block of the first line that starts
with a quote, contains `= {`, and whose first quoted segment equals
`old`. -/
def updGo (old : Str) : UScan → Nat → List Str → Option (Nat × Nat)
  | _, _, [] => none
  | st, i, line :: rest =>
    let trimmed := trimC line
    if containsS trimmed "services.samba".data ∧ '=' ∈ trimmed ∧ '{' ∈ trimmed then
      updGo old { st with in_samba := true } (i+1) rest
    else if st.in_samba ∧ ¬ st.in_settings ∧ "settings".data <+: trimmed ∧ '=' ∈ trimmed then
      updGo old { st with in_settings := true } (i+1) rest
    else if st.in_settings then
      if ¬ st.in_target ∧ trimmed.head? = some '"' ∧ containsS trimmed "= \x7b".data then
        if splitQuote1 trimmed = some old then
          updGo old { st with in_target := true, start := some i,
                              braces := (trimmed.count '{' : Int) } (i+1) rest
        else updGo old st (i+1) rest
      else if st.in_target then
        let b := st.braces + (trimmed.count '{' : Int) - (trimmed.count '}' : Int)
        if b ≤ 0 then
          match st.start with
          | some s => some (s, i)
          | none => none
        else updGo old { st with braces := b } (i+1) rest
      else updGo old st (i+1) rest
    else updGo old st (i+1) rest

/-- `SambaShareConfig::update` (`share_config.rs` lines 309-404) over the
list of lines of the file: drain the located span, insert the serialized
replacement at its start. -/
def SambaShareConfig.update (lines : List Str) (old : Str) (s : SambaShareConfig) :
    Except Str (List Str) :=
  match updGo old ⟨false, false, false, none, 0⟩ 0 lines with
  | some (st, en) => .ok (lines.take st ++ serializeLines s ++ lines.drop (en + 1))
  | none => .error ("Share '".data ++ old ++ "' not found in configuration".data)

/-- `SambaShareConfig::update` from text to text. -/
def SambaShareConfig.update_text (text : Str) (old : Str) (s : SambaShareConfig) :
    Except Str Str :=
  (SambaShareConfig.update (rustLines text) old s).map joinLines

/-! ### Canonical configurations

A configuration in the shape the writer itself produces: the settings
container with a list of serialized share blocks as its direct children. -/

/-- The enclosing lines of a canonical configuration, before the blocks. -/
def settingsHeader : List Str :=
  ["\x7b".data, "  services.samba = \x7b".data, "    settings = \x7b".data]

/-- The enclosing lines of a canonical configuration, after the blocks. -/
def settingsFooter : List Str :=
  ["    \x7d;".data, "  \x7d;".data, "\x7d".data]

/-- A canonical configuration holding exactly the records `rs`. -/
def canonicalLines (rs : List SambaShareConfig) : List Str :=
  settingsHeader ++ (rs.map serializeLines).flatten ++ settingsFooter

/-- The empty canonical configuration text (empty settings container). -/
def emptyContainerText : Str := joinLines (canonicalLines [])

/-- The `load_all` loop state inside the settings section, between share
blocks: used as the invariant state of the canonical-configuration
lemmas. -/
def stMid (acc : List SambaShareConfig) : LoadState :=
  ⟨true, true, false, [], [], 0, 0, acc, false⟩

/-- Character-level sanity of a serialized field: no quote, no braces,
no newline.  These are the characters that have structural meaning for
the line-oriented reader/writer. -/
def cleanField (l : Str) : Prop := '"' ∉ l ∧ '{' ∉ l ∧ '}' ∉ l ∧ '\n' ∉ l

instance (l : Str) : Decidable (cleanField l) := by unfold cleanField; infer_instance

/-- A valid `LocalShareRecord`: fields free of the structurally
meaningful characters, and a name that is trimmed, `=`-free, dot-free
(so it cannot contain the `services.samba` marker) and not the reserved
`global`. -/
def ValidLocalShare (s : SambaShareConfig) : Prop :=
  cleanField s.name ∧ '=' ∉ s.name ∧ '.' ∉ s.name ∧ trimC s.name = s.name ∧
  s.name ≠ "global".data ∧
  cleanField s.path ∧ cleanField s.force_user ∧ cleanField s.force_group

instance (s : SambaShareConfig) : Decidable (ValidLocalShare s) := by
  unfold ValidLocalShare; infer_instance

end SambaShares

namespace SambaShares

/-! ## Helper lemmas -/

lemma validate_remote_url_error
    (url : Str) (h : ¬ ("//".data <+: url) ∨ url.count '/' < 3 ∨ hasShellMeta url) :
    ∃ e, validate_remote_url url = .error e := by
  unfold validate_remote_url
  split_ifs with h1 h2 h3 <;> first | exact ⟨_, rfl⟩ | (unfold hasShellMeta at h; tauto)

lemma validate_mount_point_error
    (mp : Str) (h : ¬ ("/".data <+: mp) ∨ hasShellMeta mp) :
    ∃ e, validate_mount_point mp = .error e := by
  unfold validate_mount_point
  split_ifs with h1 h2 <;> first | exact ⟨_, rfl⟩ | (unfold hasShellMeta at h; tauto)

lemma is_mounted_of_mem {env : MountEnv} {mp : Str} (h : mp ∈ env.mounts) :
    is_mounted env mp = true := by
  unfold is_mounted
  exact List.any_eq_true.mpr ⟨mp, h, by simp⟩

/-! ### String-helper lemmas -/

lemma dropEnd_concat (p : Char → Bool) (l : Str) (c : Char) :
    dropEnd p (l ++ [c]) = if p c then dropEnd p l else l ++ [c] := by
  simp only [dropEnd, List.reverse_append, List.reverse_singleton, List.singleton_append,
    List.dropWhile_cons]
  split <;> simp

lemma dropEnd_concat_neg (p : Char → Bool) (l : Str) (c : Char) (h : ¬ p c) :
    dropEnd p (l ++ [c]) = l ++ [c] := by
  rw [dropEnd_concat, if_neg h]

lemma dropEnd_eq_self_of_getLast (p : Char → Bool) (l : Str) (c : Char)
    (hc : l.getLast? = some c) (h : ¬ p c) : dropEnd p l = l := by
  have hne : l ≠ [] := by rintro rfl; simp at hc
  have hl : l.dropLast ++ [l.getLast hne] = l := List.dropLast_append_getLast hne
  have hcl : l.getLast hne = c := by
    rw [List.getLast?_eq_getLast l hne] at hc
    exact Option.some.inj hc
  calc dropEnd p l = dropEnd p (l.dropLast ++ [l.getLast hne]) := by rw [hl]
    _ = l.dropLast ++ [l.getLast hne] := by rw [hcl]; exact dropEnd_concat_neg _ _ _ h
    _ = l := hl

lemma ltrim_cons_nonwhite (c : Char) (l : Str) (h : ¬ c.isWhitespace) :
    ltrim (c :: l) = c :: l := by
  simp [ltrim, List.dropWhile_cons, h]

lemma rtrim_concat_nonwhite (l : Str) (c : Char) (h : ¬ c.isWhitespace) :
    rtrim (l ++ [c]) = l ++ [c] := dropEnd_concat_neg _ _ _ h

lemma rtrim_concat_white (l : Str) (c : Char) (h : c.isWhitespace) :
    rtrim (l ++ [c]) = rtrim l := by
  rw [rtrim, dropEnd_concat, if_pos h]; rfl

lemma ltrim_replicate_space (n : Nat) (l : Str) :
    ltrim (List.replicate n ' ' ++ l) = ltrim l := by
  induction n with
  | zero => rfl
  | succ k ih => simp [List.replicate_succ, ltrim, List.dropWhile_cons, ih]

lemma ltrim_suffix (l : Str) : ltrim l <:+ l := List.dropWhile_suffix _

lemma rtrim_prefix (l : Str) : rtrim l <+: l := by
  have h : l.reverse.dropWhile Char.isWhitespace <:+ l.reverse := List.dropWhile_suffix _
  have h2 := List.reverse_prefix.mpr h
  simpa [rtrim, dropEnd] using h2

lemma trimC_parts {l : Str} (h : trimC l = l) : ltrim l = l ∧ rtrim l = l := by
  have hsuf : ltrim l <:+ l := ltrim_suffix l
  have hpre : rtrim (ltrim l) <+: ltrim l := rtrim_prefix _
  have hlen : l.length ≤ (ltrim l).length := by
    have h2 := hpre.length_le
    rw [show rtrim (ltrim l) = l from h] at h2
    exact h2
  have hl : ltrim l = l := hsuf.eq_of_length (le_antisymm hsuf.length_le hlen)
  refine ⟨hl, ?_⟩
  calc rtrim l = rtrim (ltrim l) := by rw [hl]
    _ = l := h

lemma ltrim_append_of_fixed {l : Str} (m : Str) (h : ltrim l = l) (hne : l ≠ []) :
    ltrim (l ++ m) = l ++ m := by
  cases l with
  | nil => exact absurd rfl hne
  | cons c cs =>
    have hc : ¬ c.isWhitespace := by
      intro hw
      have h1 : ltrim (c :: cs) = ltrim cs := by simp [ltrim, List.dropWhile_cons, hw]
      have h2 : (ltrim cs).length ≤ cs.length := (ltrim_suffix cs).length_le
      rw [h] at h1
      have h3 : (c :: cs).length ≤ cs.length := by rw [h1]; exact h2
      simp at h3
    simpa using ltrim_cons_nonwhite c (cs ++ m) hc

lemma containsS_false_of_char {c : Char} {pat l : Str} (hc : c ∈ pat) (hl : c ∉ l) :
    containsS l pat = false := by
  simp only [containsS, decide_eq_false_iff_not]
  intro h
  exact hl (h.subset hc)

lemma containsS_of_suffix {pat l : Str} (h : pat <:+ l) : containsS l pat = true := by
  simp only [containsS, decide_eq_true_eq]
  exact h.isInfix

lemma takeWhile_append_all (p : Char → Bool) (l1 l2 : Str) (h : ∀ a ∈ l1, p a) :
    List.takeWhile p (l1 ++ l2) = l1 ++ List.takeWhile p l2 := by
  induction l1 with
  | nil => rfl
  | cons a as ih =>
    simp [List.takeWhile_cons, h a (by simp), ih (fun x hx => h x (by simp [hx]))]

lemma count_append_triple (c : Char) (a m b : Str) :
    (a ++ m ++ b).count c = a.count c + m.count c + b.count c := by
  simp [List.count_append, Nat.add_assoc]

lemma trimC_trailing (l : Str) (h : trimC l = l) : trimC (l ++ [' ']) = l := by
  cases hl : l with
  | nil => rfl
  | cons c cs =>
    rw [← hl]
    have hne : l ≠ [] := by rw [hl]; simp
    rw [trimC, ltrim_append_of_fixed [' '] (trimC_parts h).1 hne,
      rtrim_concat_white _ _ (by decide), (trimC_parts h).2]

/-! ### Evaluation of `loadStep` on the serialized line shapes -/

lemma loadStep_shareHeader (st : LoadState) (name : Str)
    (hbroke : st.broke = false) (hsett : st.in_settings = true) (hshare : st.in_share = false)
    (hq : '"' ∉ name) (heq : '=' ∉ name) (hdot : '.' ∉ name) (hbr : '{' ∉ name)
    (htr : trimC name = name) :
    loadStep st ("    \"".data ++ name ++ "\" = \x7b".data) =
      { st with cur_name := name, in_share := true, share_braces := 1 } := by
  have hform : "    \"".data ++ name ++ "\" = \x7b".data =
      List.replicate 4 ' ' ++ ('"' :: (name ++ "\" = \x7b".data)) := rfl
  have htrimmed : trimC ("    \"".data ++ name ++ "\" = \x7b".data) =
      '"' :: (name ++ "\" = \x7b".data) := by
    rw [hform, trimC, ltrim_replicate_space, ltrim_cons_nonwhite _ _ (by decide)]
    have hsplit : '"' :: (name ++ "\" = \x7b".data) =
        ('"' :: (name ++ "\" = ".data)) ++ ['{'] := by simp
    rw [hsplit, rtrim_concat_nonwhite _ _ (by decide)]
  have hdotline : '.' ∉ '"' :: (name ++ "\" = \x7b".data) := by
    simp only [List.mem_cons, List.mem_append]
    rintro (h | h | h)
    · exact absurd h (by decide)
    · exact hdot h
    · exact absurd h (by decide)
  have hbrline : '{' ∈ '"' :: (name ++ "\" = \x7b".data) := by simp
  have heqline : '=' ∈ '"' :: (name ++ "\" = \x7b".data) := by simp
  have hfilter : (('"' :: (name ++ "\" = \x7b".data)).filter (· ≠ '"')) =
      name ++ " = \x7b".data := by
    have h1 : ∀ a ∈ name, (decide (a ≠ '"')) = true := by
      intro a ha
      simp only [decide_eq_true_eq]
      rintro rfl
      exact hq ha
    have step1 : (('"' :: (name ++ "\" = \x7b".data)).filter (· ≠ '"')) =
        (name ++ "\" = \x7b".data).filter (· ≠ '"') := by
      simp [List.filter_cons]
    rw [step1, List.filter_append, List.filter_eq_self.mpr h1]
    exact congrArg (name ++ ·) (by decide)
  have htake : (name ++ " = \x7b".data).takeWhile (· ≠ '=') = name ++ [' '] := by
    have h1 : ∀ a ∈ name, (decide (a ≠ '=')) = true := by
      intro a ha
      simp only [decide_eq_true_eq]
      rintro rfl
      exact heq ha
    rw [takeWhile_append_all _ _ _ h1]
    rfl
  have hcount : (('"' :: (name ++ "\" = \x7b".data)).count '{') = 1 := by
    rw [List.count_cons, List.count_append, List.count_eq_zero.mpr hbr]
    decide
  unfold loadStep
  rw [if_neg (show ¬ (st.broke = true) by rw [hbroke]; simp)]
  simp only [htrimmed]
  rw [if_neg (fun hconj => by
    have := containsS_false_of_char (show '.' ∈ "services.samba".data by decide) hdotline
    rw [hconj.1] at this
    exact Bool.noConfusion this)]
  rw [if_neg (fun hconj => by rw [hsett] at hconj; exact hconj.2.1 rfl)]
  rw [if_pos hsett]
  rw [if_pos ⟨by rw [hshare]; simp, heqline, hbrline⟩]
  rw [hfilter, htake, trimC_trailing _ htr, hcount]
  simp

lemma loadStep_prop (st : LoadState) (line k v : Str)
    (hbroke : st.broke = false) (hsett : st.in_settings = true)
    (hshare : st.in_share = true) (hbr : st.share_braces = 1)
    (hbrace : '{' ∉ trimC line) (hcbrace : '}' ∉ trimC line)
    (heq : '=' ∈ trimC line)
    (hk : trimMatches '"' (trimC ((trimC line).takeWhile (· ≠ '='))) = k)
    (hv : trimMatches '"' (trimEndMatches ';' (trimC (((trimC line).dropWhile (· ≠ '=')).tail))) = v) :
    loadStep st line = { st with cur_props := (k, v) :: st.cur_props } := by
  unfold loadStep
  simp only []
  rw [if_neg (show ¬ (st.broke = true) by rw [hbroke]; simp)]
  rw [if_neg (fun hconj => hbrace hconj.2.2)]
  rw [if_neg (fun hconj => by rw [hsett] at hconj; exact hconj.2.1 rfl)]
  rw [if_pos hsett]
  rw [if_neg (fun hconj => by rw [hshare] at hconj; exact hconj.1 rfl)]
  rw [if_pos hshare]
  rw [if_pos (show ('=' ∈ trimC line ∧ ¬ (containsS (trimC line) "= \x7b".data = true)) from
    ⟨heq, by
      have := containsS_false_of_char (show '{' ∈ "= \x7b".data by decide) hbrace
      simp [this]⟩)]
  rw [hk, hv]
  rw [List.count_eq_zero.mpr hcbrace]
  rw [if_neg (show ¬ (st.share_braces - ((0 : Nat) : Int) ≤ 0) by rw [hbr]; decide)]
  simp

lemma not_mem_append3 {c : Char} {a m b : Str} (ha : c ∉ a) (hm : c ∉ m) (hb : c ∉ b) :
    c ∉ a ++ (m ++ b) := by
  simp only [List.mem_append]
  tauto

/-- Parsing the value part ` "v";` of a quoted property value recovers `v`. -/
lemma quoted_value_parse (v : Str) (hq : '"' ∉ v) :
    trimMatches '"' (trimEndMatches ';' (trimC (' ' :: '"' :: (v ++ "\";".data)))) = v := by
  have h1 : trimC (' ' :: '"' :: (v ++ "\";".data)) = '"' :: (v ++ "\";".data) := by
    have hl : ltrim (' ' :: '"' :: (v ++ "\";".data)) = '"' :: (v ++ "\";".data) := rfl
    have hsh : '"' :: (v ++ "\";".data) = ('"' :: (v ++ ['"'])) ++ [';'] := by simp
    rw [trimC, hl, hsh, rtrim_concat_nonwhite _ _ (by decide)]
  rw [h1]
  have h2 : trimEndMatches ';' ('"' :: (v ++ "\";".data)) = '"' :: (v ++ ['"']) := by
    have hsh : '"' :: (v ++ "\";".data) = ('"' :: (v ++ ['"'])) ++ [';'] := by simp
    rw [trimEndMatches, hsh, dropEnd_concat, if_pos (by decide)]
    have hsh2 : '"' :: (v ++ ['"']) = ('"' :: v) ++ ['"'] := by simp
    rw [hsh2, dropEnd_concat_neg _ _ _ (by decide), ← hsh2]
  rw [h2]
  cases hv : v with
  | nil => decide
  | cons c cs =>
    rw [← hv]
    have hdw : ('"' :: (v ++ ['"'])).dropWhile (· = '"') = v ++ ['"'] := by
      rw [show ('"' :: (v ++ ['"'])).dropWhile (· = '"') = (v ++ ['"']).dropWhile (· = '"') from by
        simp [List.dropWhile_cons]]
      rw [hv, List.cons_append, List.dropWhile_cons, if_neg (by
        simp only [decide_eq_true_eq]
        rintro rfl
        exact hq (by rw [hv]; simp))]
    rw [trimMatches, hdw, dropEnd_concat, if_pos (by decide)]
    have hlast : v.getLast? = some (v.getLast (by rw [hv]; simp)) :=
      List.getLast?_eq_getLast v (by rw [hv]; simp)
    exact dropEnd_eq_self_of_getLast _ _ _ hlast (by
      simp only [decide_eq_true_eq]
      intro hcontra
      exact hq (hcontra ▸ List.getLast_mem (by rw [hv]; simp)))

lemma loadStep_pathLine (st : LoadState) (v : Str)
    (hbroke : st.broke = false) (hsett : st.in_settings = true)
    (hshare : st.in_share = true) (hbr : st.share_braces = 1)
    (hcf : cleanField v) :
    loadStep st ("      path = \"".data ++ v ++ "\";".data) =
      { st with cur_props := ("path".data, v) :: st.cur_props } := by
  obtain ⟨hq, hob, hcb, _⟩ := hcf
  have htrim : trimC ("      path = \"".data ++ v ++ "\";".data) =
      "path = \"".data ++ (v ++ "\";".data) := by
    have hform : "      path = \"".data ++ v ++ "\";".data =
        List.replicate 6 ' ' ++ ("path = \"".data ++ (v ++ "\";".data)) := rfl
    rw [hform, trimC, ltrim_replicate_space,
        ltrim_append_of_fixed _ (by decide) (by decide)]
    have hsh : "path = \"".data ++ (v ++ "\";".data) =
        ("path = \"".data ++ (v ++ ['"'])) ++ [';'] := by simp
    rw [hsh, rtrim_concat_nonwhite _ _ (by decide)]
  refine loadStep_prop st _ "path".data v hbroke hsett hshare hbr ?_ ?_ ?_ ?_ ?_
  · rw [htrim]; exact not_mem_append3 (by decide) hob (by decide)
  · rw [htrim]; exact not_mem_append3 (by decide) hcb (by decide)
  · rw [htrim]; exact List.mem_append_left _ (by decide)
  · rw [htrim]; rfl
  · rw [htrim]; exact quoted_value_parse v hq

lemma loadStep_forceUserLine (st : LoadState) (v : Str)
    (hbroke : st.broke = false) (hsett : st.in_settings = true)
    (hshare : st.in_share = true) (hbr : st.share_braces = 1)
    (hcf : cleanField v) :
    loadStep st ("      \"force user\" = \"".data ++ v ++ "\";".data) =
      { st with cur_props := ("force user".data, v) :: st.cur_props } := by
  obtain ⟨hq, hob, hcb, _⟩ := hcf
  have htrim : trimC ("      \"force user\" = \"".data ++ v ++ "\";".data) =
      "\"force user\" = \"".data ++ (v ++ "\";".data) := by
    have hform : "      \"force user\" = \"".data ++ v ++ "\";".data =
        List.replicate 6 ' ' ++ ("\"force user\" = \"".data ++ (v ++ "\";".data)) := rfl
    rw [hform, trimC, ltrim_replicate_space,
        ltrim_append_of_fixed _ (by decide) (by decide)]
    have hsh : "\"force user\" = \"".data ++ (v ++ "\";".data) =
        ("\"force user\" = \"".data ++ (v ++ ['"'])) ++ [';'] := by simp
    rw [hsh, rtrim_concat_nonwhite _ _ (by decide)]
  refine loadStep_prop st _ "force user".data v hbroke hsett hshare hbr ?_ ?_ ?_ ?_ ?_
  · rw [htrim]; exact not_mem_append3 (by decide) hob (by decide)
  · rw [htrim]; exact not_mem_append3 (by decide) hcb (by decide)
  · rw [htrim]; exact List.mem_append_left _ (by decide)
  · rw [htrim]; rfl
  · rw [htrim]; exact quoted_value_parse v hq

lemma loadStep_forceGroupLine (st : LoadState) (v : Str)
    (hbroke : st.broke = false) (hsett : st.in_settings = true)
    (hshare : st.in_share = true) (hbr : st.share_braces = 1)
    (hcf : cleanField v) :
    loadStep st ("      \"force group\" = \"".data ++ v ++ "\";".data) =
      { st with cur_props := ("force group".data, v) :: st.cur_props } := by
  obtain ⟨hq, hob, hcb, _⟩ := hcf
  have htrim : trimC ("      \"force group\" = \"".data ++ v ++ "\";".data) =
      "\"force group\" = \"".data ++ (v ++ "\";".data) := by
    have hform : "      \"force group\" = \"".data ++ v ++ "\";".data =
        List.replicate 6 ' ' ++ ("\"force group\" = \"".data ++ (v ++ "\";".data)) := rfl
    rw [hform, trimC, ltrim_replicate_space,
        ltrim_append_of_fixed _ (by decide) (by decide)]
    have hsh : "\"force group\" = \"".data ++ (v ++ "\";".data) =
        ("\"force group\" = \"".data ++ (v ++ ['"'])) ++ [';'] := by simp
    rw [hsh, rtrim_concat_nonwhite _ _ (by decide)]
  refine loadStep_prop st _ "force group".data v hbroke hsett hshare hbr ?_ ?_ ?_ ?_ ?_
  · rw [htrim]; exact not_mem_append3 (by decide) hob (by decide)
  · rw [htrim]; exact not_mem_append3 (by decide) hcb (by decide)
  · rw [htrim]; exact List.mem_append_left _ (by decide)
  · rw [htrim]; rfl
  · rw [htrim]; exact quoted_value_parse v hq

lemma loadStep_browseableLine (st : LoadState) (b : Bool)
    (hbroke : st.broke = false) (hsett : st.in_settings = true)
    (hshare : st.in_share = true) (hbr : st.share_braces = 1) :
    loadStep st ("      browseable = ".data ++ ynStr b ++ ";".data) =
      { st with cur_props := ("browseable".data, ynStr b) :: st.cur_props } := by
  cases b <;>
    exact loadStep_prop st _ _ _ hbroke hsett hshare hbr (by decide) (by decide)
      (by decide) (by decide) (by decide)

lemma loadStep_readOnlyLine (st : LoadState) (b : Bool)
    (hbroke : st.broke = false) (hsett : st.in_settings = true)
    (hshare : st.in_share = true) (hbr : st.share_braces = 1) :
    loadStep st ("      \"read only\" = ".data ++ ynStr b ++ ";".data) =
      { st with cur_props := ("read only".data, ynStr b) :: st.cur_props } := by
  cases b <;>
    exact loadStep_prop st _ _ _ hbroke hsett hshare hbr (by decide) (by decide)
      (by decide) (by decide) (by decide)

lemma loadStep_guestOkLine (st : LoadState) (b : Bool)
    (hbroke : st.broke = false) (hsett : st.in_settings = true)
    (hshare : st.in_share = true) (hbr : st.share_braces = 1) :
    loadStep st ("      \"guest ok\" = ".data ++ ynStr b ++ ";".data) =
      { st with cur_props := ("guest ok".data, ynStr b) :: st.cur_props } := by
  cases b <;>
    exact loadStep_prop st _ _ _ hbroke hsett hshare hbr (by decide) (by decide)
      (by decide) (by decide) (by decide)

lemma loadStep_shareClose (st : LoadState)
    (hbroke : st.broke = false) (hsett : st.in_settings = true)
    (hshare : st.in_share = true) (hbr : st.share_braces = 1) :
    loadStep st "    \x7d;".data =
      { st with in_share := false,
                shares := if trimC st.cur_name ≠ "global".data
                          then st.shares ++ [mkShare st.cur_name st.cur_props]
                          else st.shares,
                cur_props := [], cur_name := [], share_braces := 0 } := by
  unfold loadStep
  have htrimmed : trimC "    \x7d;".data = "\x7d;".data := by decide
  simp only [htrimmed]
  rw [if_neg (show ¬ (st.broke = true) by rw [hbroke]; simp)]
  rw [if_neg (by decide)]
  rw [if_neg (fun hconj => by rw [hsett] at hconj; exact hconj.2.1 rfl)]
  rw [if_pos hsett]
  rw [if_neg (fun hconj => by rw [hshare] at hconj; exact hconj.1 rfl)]
  rw [if_pos hshare]
  rw [if_neg (show ¬ ('=' ∈ "\x7d;".data ∧ ¬ (containsS "\x7d;".data "= \x7b".data = true)) by decide)]
  rw [if_pos (show st.share_braces - ((List.count '}' "\x7d;".data : Nat) : Int) ≤ 0 by
    rw [hbr]; decide)]
  rw [hbr]
  simp

lemma mkShare_roundtrip (s : SambaShareConfig) :
    mkShare s.name
      [("force group".data, s.force_group), ("force user".data, s.force_user),
       ("guest ok".data, ynStr s.guest_ok), ("read only".data, ynStr s.read_only),
       ("browseable".data, ynStr s.browsable), ("path".data, s.path)] = s := by
  cases s with
  | mk name path browsable read_only guest_ok force_user force_group =>
    cases browsable <;> cases read_only <;> cases guest_ok <;> rfl

/-- Folding the eight serialized lines of a valid share through the
`load_all` loop, starting inside the settings section and outside any
share block, appends exactly that share. -/
lemma foldl_serializeLines (st : LoadState) (s : SambaShareConfig)
    (hbroke : st.broke = false) (hsett : st.in_settings = true) (hshare : st.in_share = false)
    (hprops : st.cur_props = []) (hv : ValidLocalShare s) :
    List.foldl loadStep st (serializeLines s) =
      { st with in_share := false, cur_name := [], cur_props := [],
                share_braces := 0, shares := st.shares ++ [s] } := by
  obtain ⟨⟨hq, hob, hcb, _⟩, heqn, hdot, htr, hglob, hp, hfu, hfg⟩ := hv
  unfold serializeLines
  rw [List.foldl_cons, List.foldl_cons, List.foldl_cons, List.foldl_cons, List.foldl_cons,
      List.foldl_cons, List.foldl_cons, List.foldl_cons, List.foldl_nil]
  rw [loadStep_shareHeader st s.name hbroke hsett hshare hq heqn hdot hob htr]
  rw [loadStep_pathLine
      { st with cur_name := s.name, in_share := true, share_braces := 1 }
      s.path hbroke hsett rfl rfl hp]
  rw [loadStep_browseableLine
      { st with cur_name := s.name, in_share := true, share_braces := 1,
                cur_props := ("path".data, s.path) :: st.cur_props }
      s.browsable hbroke hsett rfl rfl]
  rw [loadStep_readOnlyLine
      { st with cur_name := s.name, in_share := true, share_braces := 1,
                cur_props := ("browseable".data, ynStr s.browsable) ::
                  ("path".data, s.path) :: st.cur_props }
      s.read_only hbroke hsett rfl rfl]
  rw [loadStep_guestOkLine
      { st with cur_name := s.name, in_share := true, share_braces := 1,
                cur_props := ("read only".data, ynStr s.read_only) ::
                  ("browseable".data, ynStr s.browsable) ::
                  ("path".data, s.path) :: st.cur_props }
      s.guest_ok hbroke hsett rfl rfl]
  rw [loadStep_forceUserLine
      { st with cur_name := s.name, in_share := true, share_braces := 1,
                cur_props := ("guest ok".data, ynStr s.guest_ok) ::
                  ("read only".data, ynStr s.read_only) ::
                  ("browseable".data, ynStr s.browsable) ::
                  ("path".data, s.path) :: st.cur_props }
      s.force_user hbroke hsett rfl rfl hfu]
  rw [loadStep_forceGroupLine
      { st with cur_name := s.name, in_share := true, share_braces := 1,
                cur_props := ("force user".data, s.force_user) ::
                  ("guest ok".data, ynStr s.guest_ok) ::
                  ("read only".data, ynStr s.read_only) ::
                  ("browseable".data, ynStr s.browsable) ::
                  ("path".data, s.path) :: st.cur_props }
      s.force_group hbroke hsett rfl rfl hfg]
  rw [loadStep_shareClose
      { st with cur_name := s.name, in_share := true, share_braces := 1,
                cur_props := ("force group".data, s.force_group) ::
                  ("force user".data, s.force_user) ::
                  ("guest ok".data, ynStr s.guest_ok) ::
                  ("read only".data, ynStr s.read_only) ::
                  ("browseable".data, ynStr s.browsable) ::
                  ("path".data, s.path) :: st.cur_props }
      hbroke hsett rfl rfl]
  rw [hprops, htr, if_pos hglob]
  rw [mkShare_roundtrip s]

/-- Folding all the blocks of a canonical configuration appends exactly
the corresponding records. -/
lemma foldl_blocks (rs : List SambaShareConfig) (acc : List SambaShareConfig)
    (hv : ∀ r ∈ rs, ValidLocalShare r) :
    List.foldl loadStep (stMid acc) ((rs.map serializeLines).flatten) = stMid (acc ++ rs) := by
  induction rs generalizing acc with
  | nil => simp [stMid]
  | cons r rs' ih =>
    rw [List.map_cons, List.flatten_cons, List.foldl_append]
    rw [foldl_serializeLines (stMid acc) r rfl rfl rfl rfl (hv r (by simp))]
    show List.foldl loadStep (stMid (acc ++ [r])) ((rs'.map serializeLines).flatten) =
      stMid (acc ++ r :: rs')
    rw [ih (acc ++ [r]) (fun x hx => hv x (by simp [hx]))]
    simp

/-- The closing lines of a canonical configuration stop the loop. -/
lemma foldl_footer (acc : List SambaShareConfig) :
    List.foldl loadStep (stMid acc) settingsFooter =
      { stMid acc with section_braces := -1, broke := true } := rfl

/-- `load_all` of a canonical configuration built from valid records
recovers exactly those records. -/
lemma load_all_canonical (rs : List SambaShareConfig)
    (hv : ∀ r ∈ rs, ValidLocalShare r) :
    SambaShareConfig.load_all (canonicalLines rs) = rs := by
  unfold SambaShareConfig.load_all canonicalLines
  rw [List.foldl_append, List.foldl_append]
  rw [show List.foldl loadStep initLoad settingsHeader = stMid [] from rfl]
  rw [foldl_blocks rs [] hv, foldl_footer]
  simp [stMid]

lemma rustLinesAux_no_newline (m : Str) (cur : Str) (h : '\n' ∉ m)
    (hne : cur.reverse ++ m ≠ []) :
    rustLinesAux cur m = [cur.reverse ++ m] := by
  induction m generalizing cur with
  | nil =>
    simp only [List.append_nil] at hne ⊢
    have hc : cur ≠ [] := fun hc => hne (by simp [hc])
    simp [rustLinesAux, List.isEmpty_iff, hc]
  | cons c m' ih =>
    have hc : c ≠ '\n' := fun hcc => h (hcc ▸ List.mem_cons_self c m')
    rw [rustLinesAux, if_neg hc]
    rw [ih (c :: cur) (fun hx => h (List.mem_cons_of_mem c hx)) (by simp)]
    simp

lemma rustLinesAux_through_line (a : Str) (cur m : Str) (h : '\n' ∉ a)
    (hr : (cur.reverse ++ a).getLast? ≠ some '\r') :
    rustLinesAux cur (a ++ '\n' :: m) = (cur.reverse ++ a) :: rustLinesAux [] m := by
  induction a generalizing cur with
  | nil =>
    simp only [List.append_nil] at hr ⊢
    rw [List.nil_append, rustLinesAux, if_pos rfl]
    rw [stripCR, if_neg hr]
  | cons c a' ih =>
    have hc : c ≠ '\n' := fun hcc => h (hcc ▸ List.mem_cons_self c a')
    rw [List.cons_append, rustLinesAux, if_neg hc]
    rw [ih (c :: cur) (fun hx => h (List.mem_cons_of_mem c hx)) (by simpa using hr)]
    simp

/-- `rustLines` is a left inverse of `joinLines` for line lists whose
lines contain no newline, do not end in a carriage return, and whose
final line is non-empty. -/
lemma joinLines_cons_cons (a b : Str) (L : List Str) :
    joinLines (a :: b :: L) = a ++ '\n' :: joinLines (b :: L) := rfl

lemma rustLines_joinLines (L : List Str)
    (h : ∀ l ∈ L, '\n' ∉ l ∧ l.getLast? ≠ some '\r')
    (hlast : L.getLast? ≠ some []) :
    rustLines (joinLines L) = L := by
  induction L with
  | nil => rfl
  | cons a L' ih =>
    cases L' with
    | nil =>
      have ha := h a (by simp)
      have hane : a ≠ [] := by
        intro hcc
        exact hlast (by simp [hcc])
      rw [joinLines, rustLines,
        rustLinesAux_no_newline a [] ha.1 (by simpa using hane)]
      simp
    | cons b L'' =>
      have ha := h a (by simp)
      rw [joinLines_cons_cons, rustLines,
        rustLinesAux_through_line a [] (joinLines (b :: L'')) ha.1 (by simpa using ha.2)]
      rw [show rustLinesAux [] (joinLines (b :: L'')) = rustLines (joinLines (b :: L'')) from rfl]
      rw [ih (fun l hl => h l (by simp [hl]))
        (by rw [List.getLast?_cons_cons] at hlast; exact hlast)]
      simp

/-- The serialized lines of a record with clean fields are newline-free,
do not end in a carriage return, and are non-empty. -/
lemma serializeLines_lines_ok (s : SambaShareConfig) (hv : ValidLocalShare s) :
    ∀ l ∈ serializeLines s, '\n' ∉ l ∧ l.getLast? ≠ some '\r' := by
  obtain ⟨⟨_, _, _, hn⟩, _, _, _, _, ⟨_, _, _, hpn⟩, ⟨_, _, _, hfun⟩, ⟨_, _, _, hfgn⟩⟩ := hv
  intro l hl
  simp only [serializeLines, List.mem_cons, List.not_mem_nil, or_false] at hl
  rcases hl with rfl | rfl | rfl | rfl | rfl | rfl | rfl | rfl
  · refine ⟨not_mem_append3 (a := "    \"".data) (by decide) hn (by decide), ?_⟩
    rw [show "    \"".data ++ s.name ++ "\" = \x7b".data =
      ("    \"".data ++ s.name ++ "\" = ".data) ++ ['{'] from by simp,
      List.getLast?_concat]
    decide
  · refine ⟨not_mem_append3 (a := "      path = \"".data) (by decide) hpn (by decide), ?_⟩
    rw [show "      path = \"".data ++ s.path ++ "\";".data =
      ("      path = \"".data ++ s.path ++ "\"".data) ++ [';'] from by simp,
      List.getLast?_concat]
    decide
  · refine ⟨not_mem_append3 (a := "      browseable = ".data)
      (by decide) (by cases s.browsable <;> decide) (by decide), ?_⟩
    rw [show "      browseable = ".data ++ ynStr s.browsable ++ ";".data =
      ("      browseable = ".data ++ ynStr s.browsable) ++ [';'] from by simp,
      List.getLast?_concat]
    decide
  · refine ⟨not_mem_append3 (a := "      \"read only\" = ".data)
      (by decide) (by cases s.read_only <;> decide) (by decide), ?_⟩
    rw [show "      \"read only\" = ".data ++ ynStr s.read_only ++ ";".data =
      ("      \"read only\" = ".data ++ ynStr s.read_only) ++ [';'] from by simp,
      List.getLast?_concat]
    decide
  · refine ⟨not_mem_append3 (a := "      \"guest ok\" = ".data)
      (by decide) (by cases s.guest_ok <;> decide) (by decide), ?_⟩
    rw [show "      \"guest ok\" = ".data ++ ynStr s.guest_ok ++ ";".data =
      ("      \"guest ok\" = ".data ++ ynStr s.guest_ok) ++ [';'] from by simp,
      List.getLast?_concat]
    decide
  · refine ⟨not_mem_append3 (a := "      \"force user\" = \"".data)
      (by decide) hfun (by decide), ?_⟩
    rw [show "      \"force user\" = \"".data ++ s.force_user ++ "\";".data =
      ("      \"force user\" = \"".data ++ s.force_user ++ "\"".data) ++ [';'] from by simp,
      List.getLast?_concat]
    decide
  · refine ⟨not_mem_append3 (a := "      \"force group\" = \"".data)
      (by decide) hfgn (by decide), ?_⟩
    rw [show "      \"force group\" = \"".data ++ s.force_group ++ "\";".data =
      ("      \"force group\" = \"".data ++ s.force_group ++ "\"".data) ++ [';'] from by simp,
      List.getLast?_concat]
    decide
  · exact ⟨by decide, by decide⟩

lemma canonical_singleton_lines_ok (s : SambaShareConfig) (hv : ValidLocalShare s) :
    ∀ l ∈ canonicalLines [s], '\n' ∉ l ∧ l.getLast? ≠ some '\r' := by
  intro l hl
  simp only [canonicalLines, settingsHeader, settingsFooter, List.mem_append,
    List.map_cons, List.map_nil, List.flatten_cons, List.flatten_nil,
    List.append_nil] at hl
  rcases hl with (hl | hl) | hl
  · simp only [List.mem_cons, List.not_mem_nil, or_false] at hl
    rcases hl with rfl | rfl | rfl <;> exact ⟨by decide, by decide⟩
  · exact serializeLines_lines_ok s hv l hl
  · simp only [List.mem_cons, List.not_mem_nil, or_false] at hl
    rcases hl with rfl | rfl | rfl <;> exact ⟨by decide, by decide⟩

/-- `write` on the empty canonical configuration inserts the serialized
record into the settings container. -/
lemma write_empty_canonical (s : SambaShareConfig) :
    SambaShareConfig.write (canonicalLines []) s = .ok (canonicalLines [s]) := rfl

/-- **C3.** For every valid `LocalShareRecord` `s`, inserting `s` into
the configuration text with an empty settings container
(`SambaShareConfig::write`) produces the canonical single-record text,
and extracting all records from that text (`SambaShareConfig::load_all`)
yields exactly one record, equal to `s`.  (All fields are serialized, so
no default substitution is exercised.) -/
theorem C3_insert_extract_roundtrip (s : SambaShareConfig) (hv : ValidLocalShare s) :
    SambaShareConfig.write_text emptyContainerText s =
      .ok (joinLines (canonicalLines [s])) ∧
    SambaShareConfig.load_all_text (joinLines (canonicalLines [s])) = [s] := by
  constructor
  · unfold SambaShareConfig.write_text
    rw [show rustLines emptyContainerText = canonicalLines [] from by decide]
    rw [write_empty_canonical]
    rfl
  · unfold SambaShareConfig.load_all_text
    rw [rustLines_joinLines (canonicalLines [s]) (canonical_singleton_lines_ok s hv) (by
      rw [canonicalLines, List.getLast?_append_of_ne_nil _ (by decide)]
      decide)]
    exact load_all_canonical [s] (by
      intro r hr
      rw [List.mem_singleton] at hr
      exact hr ▸ hv)

/-- Witness for C3 at the concrete record from the spec's scenario. -/
theorem C3_witness :
    ValidLocalShare
      ⟨"docs".data, "/srv/docs".data, true, false, true, "alice".data, "users".data⟩ ∧
    SambaShareConfig.write_text emptyContainerText
      ⟨"docs".data, "/srv/docs".data, true, false, true, "alice".data, "users".data⟩ =
      .ok (joinLines (canonicalLines
        [⟨"docs".data, "/srv/docs".data, true, false, true, "alice".data, "users".data⟩])) ∧
    SambaShareConfig.load_all_text (joinLines (canonicalLines
        [⟨"docs".data, "/srv/docs".data, true, false, true, "alice".data, "users".data⟩])) =
      [⟨"docs".data, "/srv/docs".data, true, false, true, "alice".data, "users".data⟩] := by
  refine ⟨by decide, ?_⟩
  exact C3_insert_extract_roundtrip
    ⟨"docs".data, "/srv/docs".data, true, false, true, "alice".data, "users".data⟩ (by decide)

/-! ### Evaluation of `updGo` (the update scanner) on canonical lines -/

lemma trim_headerLine (name : Str) :
    trimC ("    \"".data ++ name ++ "\" = \x7b".data) = '"' :: (name ++ "\" = \x7b".data) := by
  have hform : "    \"".data ++ name ++ "\" = \x7b".data =
      List.replicate 4 ' ' ++ ('"' :: (name ++ "\" = \x7b".data)) := rfl
  rw [hform, trimC, ltrim_replicate_space, ltrim_cons_nonwhite _ _ (by decide)]
  have hsplit : '"' :: (name ++ "\" = \x7b".data) =
      ('"' :: (name ++ "\" = ".data)) ++ ['{'] := by simp
  rw [hsplit, rtrim_concat_nonwhite _ _ (by decide)]

lemma trim_pathLine (v : Str) :
    trimC ("      path = \"".data ++ v ++ "\";".data) =
      "path = \"".data ++ (v ++ "\";".data) := by
  have hform : "      path = \"".data ++ v ++ "\";".data =
      List.replicate 6 ' ' ++ ("path = \"".data ++ (v ++ "\";".data)) := rfl
  rw [hform, trimC, ltrim_replicate_space,
      ltrim_append_of_fixed _ (by decide) (by decide)]
  have hsh : "path = \"".data ++ (v ++ "\";".data) =
      ("path = \"".data ++ (v ++ ['"'])) ++ [';'] := by simp
  rw [hsh, rtrim_concat_nonwhite _ _ (by decide)]

lemma trim_forceUserLine (v : Str) :
    trimC ("      \"force user\" = \"".data ++ v ++ "\";".data) =
      "\"force user\" = \"".data ++ (v ++ "\";".data) := by
  have hform : "      \"force user\" = \"".data ++ v ++ "\";".data =
      List.replicate 6 ' ' ++ ("\"force user\" = \"".data ++ (v ++ "\";".data)) := rfl
  rw [hform, trimC, ltrim_replicate_space,
      ltrim_append_of_fixed _ (by decide) (by decide)]
  have hsh : "\"force user\" = \"".data ++ (v ++ "\";".data) =
      ("\"force user\" = \"".data ++ (v ++ ['"'])) ++ [';'] := by simp
  rw [hsh, rtrim_concat_nonwhite _ _ (by decide)]

lemma trim_forceGroupLine (v : Str) :
    trimC ("      \"force group\" = \"".data ++ v ++ "\";".data) =
      "\"force group\" = \"".data ++ (v ++ "\";".data) := by
  have hform : "      \"force group\" = \"".data ++ v ++ "\";".data =
      List.replicate 6 ' ' ++ ("\"force group\" = \"".data ++ (v ++ "\";".data)) := rfl
  rw [hform, trimC, ltrim_replicate_space,
      ltrim_append_of_fixed _ (by decide) (by decide)]
  have hsh : "\"force group\" = \"".data ++ (v ++ "\";".data) =
      ("\"force group\" = \"".data ++ (v ++ ['"'])) ++ [';'] := by simp
  rw [hsh, rtrim_concat_nonwhite _ _ (by decide)]

lemma splitQuote1_header (name : Str) (hq : '"' ∉ name) :
    splitQuote1 ('"' :: (name ++ "\" = \x7b".data)) = some name := by
  unfold splitQuote1
  rw [if_pos (by simp)]
  have hdw : ('"' :: (name ++ "\" = \x7b".data)).dropWhile (· ≠ '"') =
      '"' :: (name ++ "\" = \x7b".data) := by
    rw [List.dropWhile_cons, if_neg (by decide)]
  rw [hdw]
  have h1 : ∀ a ∈ name, (decide (a ≠ '"')) = true := by
    intro a ha
    simp only [decide_eq_true_eq]
    rintro rfl
    exact hq ha
  rw [List.tail_cons, takeWhile_append_all _ _ _ h1]
  simp

lemma contains_eqbrace_header (name : Str) :
    containsS ('"' :: (name ++ "\" = \x7b".data)) "= \x7b".data = true := by
  apply containsS_of_suffix
  exact ⟨'"' :: (name ++ "\" ".data), by simp⟩

/-- A generic no-action step of the update scanner: a line that is not a
`services.samba` marker, not a quoted block header, while the scanner is
inside the settings section and not inside the target block, advances
the index and leaves the state unchanged. -/
lemma updGo_no_action (old : Str) (st : UScan) (i : Nat) (line : Str) (rest : List Str)
    (hsett : st.in_settings = true) (htarget : st.in_target = false)
    (hno1 : ¬ (containsS (trimC line) "services.samba".data = true ∧
               '=' ∈ trimC line ∧ '{' ∈ trimC line))
    (hno3 : ¬ ((trimC line).head? = some '"' ∧
               containsS (trimC line) "= \x7b".data = true)) :
    updGo old st i (line :: rest) = updGo old st (i + 1) rest := by
  rw [updGo]
  simp only []
  rw [if_neg hno1]
  rw [if_neg (fun hconj => by rw [hsett] at hconj; exact hconj.2.1 rfl)]
  rw [if_pos hsett]
  rw [if_neg (fun hconj => by
    rcases hconj with ⟨_, h2, h3⟩
    exact hno3 ⟨h2, h3⟩)]
  rw [if_neg (fun hconj => by rw [htarget] at hconj; exact Bool.noConfusion hconj)]

/-- A property line inside the target block keeps the brace count at one
and advances. -/
lemma updGo_target_prop (old : Str) (st : UScan) (i : Nat) (line : Str) (rest : List Str)
    (hsett : st.in_settings = true) (htarget : st.in_target = true)
    (hbraces : st.braces = 1)
    (hno1 : ¬ (containsS (trimC line) "services.samba".data = true ∧
               '=' ∈ trimC line ∧ '{' ∈ trimC line))
    (hob : '{' ∉ trimC line) (hcb : '}' ∉ trimC line) :
    updGo old st i (line :: rest) = updGo old { st with braces := 1 } (i + 1) rest := by
  rw [updGo]
  simp only []
  rw [if_neg hno1]
  rw [if_neg (fun hconj => by rw [hsett] at hconj; exact hconj.2.1 rfl)]
  rw [if_pos hsett]
  rw [if_neg (fun hconj => by rw [htarget] at hconj; exact hconj.1 rfl)]
  rw [if_pos htarget]
  rw [List.count_eq_zero.mpr hob, List.count_eq_zero.mpr hcb]
  rw [if_neg (show ¬ (st.braces + ((0 : Nat) : Int) - ((0 : Nat) : Int) ≤ 0) by
    rw [hbraces]; decide)]
  rw [hbraces]
  norm_num

/-- The closing line of the target block ends the scan with the stored
span. -/
lemma updGo_target_close (old : Str) (st : UScan) (i : Nat) (rest : List Str) (s0 : Nat)
    (hsett : st.in_settings = true) (htarget : st.in_target = true)
    (hbraces : st.braces = 1) (hstart : st.start = some s0) :
    updGo old st i ("    \x7d;".data :: rest) = some (s0, i) := by
  rw [updGo]
  simp only []
  have htrimmed : trimC "    \x7d;".data = "\x7d;".data := by decide
  rw [htrimmed]
  rw [if_neg (by decide)]
  rw [if_neg (fun hconj => by rw [hsett] at hconj; exact hconj.2.1 rfl)]
  rw [if_pos hsett]
  rw [if_neg (fun hconj => by rw [htarget] at hconj; exact hconj.1 rfl)]
  rw [if_pos htarget]
  rw [if_pos (show st.braces + ((List.count '{' "\x7d;".data : Nat) : Int)
      - ((List.count '}' "\x7d;".data : Nat) : Int) ≤ 0 by rw [hbraces]; decide)]
  rw [hstart]

lemma updGo_header_nonmatch (old : Str) (st : UScan) (i : Nat) (name : Str) (rest : List Str)
    (hsett : st.in_settings = true) (htarget : st.in_target = false)
    (hq : '"' ∉ name) (hdot : '.' ∉ name) (hname : name ≠ old) :
    updGo old st i (("    \"".data ++ name ++ "\" = \x7b".data) :: rest) =
      updGo old st (i + 1) rest := by
  rw [updGo]
  simp only []
  rw [trim_headerLine]
  have hdotline : '.' ∉ '"' :: (name ++ "\" = \x7b".data) := by
    simp only [List.mem_cons, List.mem_append]
    rintro (h | h | h)
    · exact absurd h (by decide)
    · exact hdot h
    · exact absurd h (by decide)
  rw [if_neg (fun hconj => by
    have := containsS_false_of_char (show '.' ∈ "services.samba".data by decide) hdotline
    rw [hconj.1] at this
    exact Bool.noConfusion this)]
  rw [if_neg (fun hconj => by rw [hsett] at hconj; exact hconj.2.1 rfl)]
  rw [if_pos hsett]
  rw [if_pos ⟨by rw [htarget]; exact Bool.noConfusion, rfl, contains_eqbrace_header name⟩]
  rw [splitQuote1_header name hq]
  rw [if_neg (fun hsome => hname (Option.some.inj hsome))]

lemma updGo_header_match (old : Str) (st : UScan) (i : Nat) (rest : List Str)
    (hsett : st.in_settings = true) (htarget : st.in_target = false)
    (hq : '"' ∉ old) (hdot : '.' ∉ old) (hob : '{' ∉ old) :
    updGo old st i (("    \"".data ++ old ++ "\" = \x7b".data) :: rest) =
      updGo old { st with in_target := true, start := some i, braces := 1 } (i + 1) rest := by
  rw [updGo]
  simp only []
  rw [trim_headerLine]
  have hdotline : '.' ∉ '"' :: (old ++ "\" = \x7b".data) := by
    simp only [List.mem_cons, List.mem_append]
    rintro (h | h | h)
    · exact absurd h (by decide)
    · exact hdot h
    · exact absurd h (by decide)
  rw [if_neg (fun hconj => by
    have := containsS_false_of_char (show '.' ∈ "services.samba".data by decide) hdotline
    rw [hconj.1] at this
    exact Bool.noConfusion this)]
  rw [if_neg (fun hconj => by rw [hsett] at hconj; exact hconj.2.1 rfl)]
  rw [if_pos hsett]
  rw [if_pos ⟨by rw [htarget]; exact Bool.noConfusion, rfl, contains_eqbrace_header old⟩]
  rw [splitQuote1_header old hq]
  rw [if_pos rfl]
  have hcount : (('"' :: (old ++ "\" = \x7b".data)).count '{') = 1 := by
    rw [List.count_cons, List.count_append, List.count_eq_zero.mpr hob]
    decide
  rw [hcount]
  norm_num

lemma updGo_skip_block (old : Str) (st : UScan) (i : Nat) (r : SambaShareConfig)
    (rest : List Str) (hsett : st.in_settings = true) (htarget : st.in_target = false)
    (hv : ValidLocalShare r) (hname : r.name ≠ old) :
    updGo old st i (serializeLines r ++ rest) = updGo old st (i + 8) rest := by
  obtain ⟨⟨hq, hob, hcb, _⟩, heqn, hdot, htr, _, hp, hfu, hfg⟩ := hv
  show updGo old st i
    (("    \"".data ++ r.name ++ "\" = \x7b".data) ::
     ("      path = \"".data ++ r.path ++ "\";".data) ::
     ("      browseable = ".data ++ ynStr r.browsable ++ ";".data) ::
     ("      \"read only\" = ".data ++ ynStr r.read_only ++ ";".data) ::
     ("      \"guest ok\" = ".data ++ ynStr r.guest_ok ++ ";".data) ::
     ("      \"force user\" = \"".data ++ r.force_user ++ "\";".data) ::
     ("      \"force group\" = \"".data ++ r.force_group ++ "\";".data) ::
     "    \x7d;".data :: rest) = updGo old st (i + 8) rest
  rw [updGo_header_nonmatch old st i r.name _ hsett htarget hq hdot hname]
  rw [updGo_no_action old st (i+1) _ _ hsett htarget
    (fun hconj => by
      rw [trim_pathLine] at hconj
      exact not_mem_append3 (a := "path = \"".data) (by decide) hp.2.1 (by decide) hconj.2.2)
    (fun hconj => by
      rw [trim_pathLine] at hconj
      exact absurd (Option.some.inj hconj.1) (by decide))]
  rw [updGo_no_action old st (i+1+1) _ _ hsett htarget
    (by cases r.browsable <;> decide) (by cases r.browsable <;> decide)]
  rw [updGo_no_action old st (i+1+1+1) _ _ hsett htarget
    (by cases r.read_only <;> decide) (by cases r.read_only <;> decide)]
  rw [updGo_no_action old st (i+1+1+1+1) _ _ hsett htarget
    (by cases r.guest_ok <;> decide) (by cases r.guest_ok <;> decide)]
  rw [updGo_no_action old st (i+1+1+1+1+1) _ _ hsett htarget
    (fun hconj => by
      rw [trim_forceUserLine] at hconj
      exact not_mem_append3 (a := "\"force user\" = \"".data) (by decide) hfu.2.1 (by decide)
        hconj.2.2)
    (fun hconj => by
      rw [trim_forceUserLine] at hconj
      have hnB : '{' ∉ "\"force user\" = \"".data ++ (r.force_user ++ "\";".data) :=
        not_mem_append3 (by decide) hfu.2.1 (by decide)
      rw [containsS_false_of_char (show '{' ∈ "= \x7b".data by decide) hnB] at hconj
      exact Bool.noConfusion hconj.2)]
  rw [updGo_no_action old st (i+1+1+1+1+1+1) _ _ hsett htarget
    (fun hconj => by
      rw [trim_forceGroupLine] at hconj
      exact not_mem_append3 (a := "\"force group\" = \"".data) (by decide) hfg.2.1 (by decide)
        hconj.2.2)
    (fun hconj => by
      rw [trim_forceGroupLine] at hconj
      have hnB : '{' ∉ "\"force group\" = \"".data ++ (r.force_group ++ "\";".data) :=
        not_mem_append3 (by decide) hfg.2.1 (by decide)
      rw [containsS_false_of_char (show '{' ∈ "= \x7b".data by decide) hnB] at hconj
      exact Bool.noConfusion hconj.2)]
  rw [updGo_no_action old st (i+1+1+1+1+1+1+1) _ _ hsett htarget
    (by decide) (by decide)]

lemma updGo_target_block (old : Str) (st : UScan) (i : Nat) (r : SambaShareConfig)
    (rest : List Str) (hsett : st.in_settings = true) (htarget : st.in_target = false)
    (hv : ValidLocalShare r) (hname : r.name = old) :
    updGo old st i (serializeLines r ++ rest) = some (i, i + 7) := by
  obtain ⟨⟨hq, hob, hcb, _⟩, heqn, hdot, htr, _, hp, hfu, hfg⟩ := hv
  subst hname
  show updGo r.name st i
    (("    \"".data ++ r.name ++ "\" = \x7b".data) ::
     ("      path = \"".data ++ r.path ++ "\";".data) ::
     ("      browseable = ".data ++ ynStr r.browsable ++ ";".data) ::
     ("      \"read only\" = ".data ++ ynStr r.read_only ++ ";".data) ::
     ("      \"guest ok\" = ".data ++ ynStr r.guest_ok ++ ";".data) ::
     ("      \"force user\" = \"".data ++ r.force_user ++ "\";".data) ::
     ("      \"force group\" = \"".data ++ r.force_group ++ "\";".data) ::
     "    \x7d;".data :: rest) = some (i, i + 7)
  rw [updGo_header_match r.name st i _ hsett htarget hq hdot hob]
  rw [updGo_target_prop r.name { st with in_target := true, start := some i, braces := 1 }
    (i+1) _ _ hsett rfl rfl
    (fun hconj => by
      rw [trim_pathLine] at hconj
      exact not_mem_append3 (a := "path = \"".data) (by decide) hp.2.1 (by decide) hconj.2.2)
    (by
      rw [trim_pathLine]
      exact not_mem_append3 (by decide) hp.2.1 (by decide))
    (by
      rw [trim_pathLine]
      exact not_mem_append3 (by decide) hp.2.2.1 (by decide))]
  rw [updGo_target_prop r.name { st with in_target := true, start := some i, braces := 1 }
    (i+1+1) _ _ hsett rfl rfl
    (by cases r.browsable <;> decide) (by cases r.browsable <;> decide)
    (by cases r.browsable <;> decide)]
  rw [updGo_target_prop r.name { st with in_target := true, start := some i, braces := 1 }
    (i+1+1+1) _ _ hsett rfl rfl
    (by cases r.read_only <;> decide) (by cases r.read_only <;> decide)
    (by cases r.read_only <;> decide)]
  rw [updGo_target_prop r.name { st with in_target := true, start := some i, braces := 1 }
    (i+1+1+1+1) _ _ hsett rfl rfl
    (by cases r.guest_ok <;> decide) (by cases r.guest_ok <;> decide)
    (by cases r.guest_ok <;> decide)]
  rw [updGo_target_prop r.name { st with in_target := true, start := some i, braces := 1 }
    (i+1+1+1+1+1) _ _ hsett rfl rfl
    (fun hconj => by
      rw [trim_forceUserLine] at hconj
      exact not_mem_append3 (a := "\"force user\" = \"".data) (by decide) hfu.2.1 (by decide)
        hconj.2.2)
    (by
      rw [trim_forceUserLine]
      exact not_mem_append3 (by decide) hfu.2.1 (by decide))
    (by
      rw [trim_forceUserLine]
      exact not_mem_append3 (by decide) hfu.2.2.1 (by decide))]
  rw [updGo_target_prop r.name { st with in_target := true, start := some i, braces := 1 }
    (i+1+1+1+1+1+1) _ _ hsett rfl rfl
    (fun hconj => by
      rw [trim_forceGroupLine] at hconj
      exact not_mem_append3 (a := "\"force group\" = \"".data) (by decide) hfg.2.1 (by decide)
        hconj.2.2)
    (by
      rw [trim_forceGroupLine]
      exact not_mem_append3 (by decide) hfg.2.1 (by decide))
    (by
      rw [trim_forceGroupLine]
      exact not_mem_append3 (by decide) hfg.2.2.1 (by decide))]
  rw [updGo_target_close r.name { st with in_target := true, start := some i, braces := 1 }
    (i+1+1+1+1+1+1+1) rest i hsett rfl rfl rfl]

lemma updGo_skip_blocks (old : Str) (pre : List SambaShareConfig) (st : UScan) (i : Nat)
    (rest : List Str) (hsett : st.in_settings = true) (htarget : st.in_target = false)
    (hv : ∀ x ∈ pre, ValidLocalShare x) (hne : ∀ x ∈ pre, x.name ≠ old) :
    updGo old st i ((pre.map serializeLines).flatten ++ rest) =
      updGo old st (i + 8 * pre.length) rest := by
  induction pre generalizing i with
  | nil => simp
  | cons p pre' ih =>
    rw [List.map_cons, List.flatten_cons, List.append_assoc]
    rw [updGo_skip_block old st i p _ hsett htarget (hv p (by simp)) (hne p (by simp))]
    rw [ih (i + 8) (fun x hx => hv x (by simp [hx])) (fun x hx => hne x (by simp [hx]))]
    congr 1
    simp [List.length_cons]
    ring

lemma length_flatten_serialize (rs : List SambaShareConfig) :
    ((rs.map serializeLines).flatten).length = 8 * rs.length := by
  induction rs with
  | nil => rfl
  | cons r rs' ih =>
    rw [List.map_cons, List.flatten_cons, List.length_append, ih]
    simp [serializeLines]
    ring

/-- `SambaShareConfig::update` on a canonical configuration replaces
exactly the direct-child block keyed `old` (the first such block) by the
serialization of the new record, leaving every sibling line untouched. -/
lemma update_canonical (old : Str) (pre post : List SambaShareConfig)
    (rOld rNew : SambaShareConfig)
    (hvpre : ∀ x ∈ pre, ValidLocalShare x) (hnepre : ∀ x ∈ pre, x.name ≠ old)
    (hvold : ValidLocalShare rOld) (hold : rOld.name = old) :
    SambaShareConfig.update (canonicalLines (pre ++ rOld :: post)) old rNew =
      .ok (canonicalLines (pre ++ rNew :: post)) := by
  have hshape : canonicalLines (pre ++ rOld :: post) =
      (settingsHeader ++ (pre.map serializeLines).flatten) ++
      (serializeLines rOld ++ ((post.map serializeLines).flatten ++ settingsFooter)) := by
    simp [canonicalLines, List.append_assoc]
  have hheader : ∀ X : List Str, updGo old ⟨false, false, false, none, 0⟩ 0
      (settingsHeader ++ X) = updGo old ⟨true, true, false, none, 0⟩ 3 X := fun X => rfl
  have hscan : updGo old ⟨false, false, false, none, 0⟩ 0
      (canonicalLines (pre ++ rOld :: post)) =
      some (3 + 8 * pre.length, 3 + 8 * pre.length + 7) := by
    rw [hshape, List.append_assoc, hheader]
    rw [updGo_skip_blocks old pre _ 3 _ rfl rfl hvpre hnepre]
    rw [updGo_target_block old _ _ rOld _ rfl rfl hvold hold]
  have hlenA : (settingsHeader ++ (pre.map serializeLines).flatten).length =
      3 + 8 * pre.length := by
    rw [List.length_append, length_flatten_serialize]
    rfl
  unfold SambaShareConfig.update
  rw [hscan]
  simp only []
  rw [show canonicalLines (pre ++ rOld :: post) =
      (settingsHeader ++ (pre.map serializeLines).flatten) ++
      (serializeLines rOld ++ ((post.map serializeLines).flatten ++ settingsFooter))
    from hshape]
  rw [List.take_left' hlenA]
  have hshape2 : (settingsHeader ++ (pre.map serializeLines).flatten) ++
      (serializeLines rOld ++ ((post.map serializeLines).flatten ++ settingsFooter)) =
      ((settingsHeader ++ (pre.map serializeLines).flatten) ++ serializeLines rOld) ++
      ((post.map serializeLines).flatten ++ settingsFooter) := by
    simp [List.append_assoc]
  have hlenB : ((settingsHeader ++ (pre.map serializeLines).flatten) ++
      serializeLines rOld).length = 3 + 8 * pre.length + 7 + 1 := by
    rw [List.length_append, hlenA]
    rfl
  rw [hshape2, List.drop_left' hlenB]
  rw [show canonicalLines (pre ++ rNew :: post) =
      (settingsHeader ++ (pre.map serializeLines).flatten) ++
      (serializeLines rNew ++ ((post.map serializeLines).flatten ++ settingsFooter))
    from by simp [canonicalLines, List.append_assoc]]
  simp [List.append_assoc]

/-- **C5.** The error classifier is a pure function of the stderr text:
both `parse_mount_error` and `parse_umount_error` coincide, on every
input, with first-match lookup in their fixed ordered tables under
case-insensitive substring matching, falling back to the trimmed original
message behind a generic failure label. -/
theorem C5_error_classifier_table (s : Str) :
    parse_mount_error s = classifySpec mountTable "Mount failed: ".data s ∧
    parse_umount_error s = classifySpec umountTable "Unmount failed: ".data s := by
  constructor
  · simp only [parse_mount_error, classifySpec, mountTable, List.find?_cons, List.find?_nil,
      List.any_cons, List.any_nil]
    generalize containsS (lowerC s) "permission denied".data = b1
    generalize containsS (lowerC s) "access denied".data = b2
    generalize containsS (lowerC s) "connection refused".data = b3
    generalize containsS (lowerC s) "could not resolve".data = b4
    generalize containsS (lowerC s) "already mounted".data = b5
    generalize containsS (lowerC s) "busy".data = b6
    generalize containsS (lowerC s) "no such file or directory".data = b7
    generalize containsS (lowerC s) "invalid argument".data = b8
    generalize containsS (lowerC s) "host is down".data = b9
    cases b1 <;> cases b2 <;> cases b3 <;> cases b4 <;> cases b5 <;> cases b6 <;>
      cases b7 <;> cases b8 <;> cases b9 <;> rfl
  · simp only [parse_umount_error, classifySpec, umountTable, List.find?_cons, List.find?_nil,
      List.any_cons, List.any_nil]
    generalize containsS (lowerC s) "not mounted".data = b1
    generalize containsS (lowerC s) "busy".data = b2
    generalize containsS (lowerC s) "target is busy".data = b3
    generalize containsS (lowerC s) "permission denied".data = b4
    cases b1 <;> cases b2 <;> cases b3 <;> cases b4 <;> rfl

/-- **C1.** If the remote URL does not start with `//`, or contains fewer
than three `/` characters, or contains one of `;`, `&`, `|`, `` ` ``, or
the mount point is not absolute or contains one of those characters, or
the mount point is already present in the live mount table, then
`mount_share` returns an error and its effect trace contains no
invocation of the OS mount command. -/
theorem C1_mount_validation_blocks_os_call
    (env : MountEnv) (url mp user pass : Str) (opts : MountOptions)
    (h : ¬ ("//".data <+: url) ∨ url.count '/' < 3 ∨ hasShellMeta url ∨
         ¬ ("/".data <+: mp) ∨ hasShellMeta mp ∨ mp ∈ env.mounts) :
    (∃ e, (mount_share env url mp user pass opts).1 = .error e) ∧
    ∀ u m o, MountEvent.runMount u m o ∉ (mount_share env url mp user pass opts).2 := by
  cases hvu : validate_remote_url url with
  | error e => simp [mount_share, hvu]
  | ok u =>
    cases u
    have hurlN : ¬ (¬ ("//".data <+: url) ∨ url.count '/' < 3 ∨ hasShellMeta url) := by
      intro hbad
      obtain ⟨e, he⟩ := validate_remote_url_error url hbad
      rw [hvu] at he; exact Except.noConfusion he
    cases hvp : validate_mount_point mp with
    | error e => simp [mount_share, hvu, hvp]
    | ok u =>
      cases u
      have hmpN : ¬ (¬ ("/".data <+: mp) ∨ hasShellMeta mp) := by
        intro hbad
        obtain ⟨e, he⟩ := validate_mount_point_error mp hbad
        rw [hvp] at he; exact Except.noConfusion he
      have hmem : mp ∈ env.mounts := by
        rcases h with h | h | h | h | h | h
        · exact absurd (Or.inl h) hurlN
        · exact absurd (Or.inr (Or.inl h)) hurlN
        · exact absurd (Or.inr (Or.inr h)) hurlN
        · exact absurd (Or.inl h) hmpN
        · exact absurd (Or.inr h) hmpN
        · exact h
      simp [mount_share, hvu, hvp, is_mounted_of_mem hmem]

/-- **C7, counterexample.** A canonical configuration holding exactly one
record keyed `a` and another keyed `b`: renaming `a` to `b` through
`update` succeeds, but extraction then yields *two* records keyed `b`,
refuting "yields exactly one record with key `r.name`". -/
theorem C7_counterexample :
    SambaShareConfig.update
        (canonicalLines
          [⟨"a".data, "/pa".data, true, false, false, [], []⟩,
           ⟨"b".data, "/pb".data, true, false, false, [], []⟩])
        "a".data ⟨"b".data, "/pa".data, true, false, false, [], []⟩ =
      .ok (canonicalLines
          [⟨"b".data, "/pa".data, true, false, false, [], []⟩,
           ⟨"b".data, "/pb".data, true, false, false, [], []⟩]) ∧
    ((SambaShareConfig.load_all (canonicalLines
          [⟨"b".data, "/pa".data, true, false, false, [], []⟩,
           ⟨"b".data, "/pb".data, true, false, false, [], []⟩])).map
        (fun s => s.name)).count "b".data = 2 := by
  exact ⟨rfl, rfl⟩

/-- **C7, amended.** For a canonical configuration containing exactly one
record keyed `old` and *no record keyed `r.name`*, after
`update(old, r)` succeeds with `r.name ≠ old`, extraction yields exactly
one record keyed `r.name` and none keyed `old`. -/
theorem C7_update_rename_unique
    (pre post : List SambaShareConfig) (rOld r : SambaShareConfig) (old : Str)
    (hvpre : ∀ x ∈ pre, ValidLocalShare x) (hvpost : ∀ x ∈ post, ValidLocalShare x)
    (hvold : ValidLocalShare rOld) (hvr : ValidLocalShare r)
    (hold : rOld.name = old)
    (hnot_old : ∀ x ∈ pre ++ post, x.name ≠ old)
    (hnot_new : ∀ x ∈ pre ++ post, x.name ≠ r.name)
    (hchanged : r.name ≠ old) :
    SambaShareConfig.update (canonicalLines (pre ++ rOld :: post)) old r =
      .ok (canonicalLines (pre ++ r :: post)) ∧
    ((SambaShareConfig.load_all (canonicalLines (pre ++ r :: post))).map
        (fun s => s.name)).count r.name = 1 ∧
    ((SambaShareConfig.load_all (canonicalLines (pre ++ r :: post))).map
        (fun s => s.name)).count old = 0 := by
  have hupd := update_canonical old pre post rOld r hvpre
    (fun x hx => hnot_old x (List.mem_append_left _ hx)) hvold hold
  have hload : SambaShareConfig.load_all (canonicalLines (pre ++ r :: post)) =
      pre ++ r :: post := by
    apply load_all_canonical
    intro x hx
    rcases List.mem_append.mp hx with hx | hx
    · exact hvpre x hx
    · rcases List.mem_cons.mp hx with rfl | hx
      · exact hvr
      · exact hvpost x hx
  have hpre_new : List.count r.name (pre.map (fun s => s.name)) = 0 := by
    refine List.count_eq_zero.mpr (fun hmem => ?_)
    obtain ⟨x, hx, hxeq⟩ := List.mem_map.mp hmem
    exact hnot_new x (List.mem_append_left _ hx) hxeq
  have hpost_new : List.count r.name (post.map (fun s => s.name)) = 0 := by
    refine List.count_eq_zero.mpr (fun hmem => ?_)
    obtain ⟨x, hx, hxeq⟩ := List.mem_map.mp hmem
    exact hnot_new x (List.mem_append_right _ hx) hxeq
  have hpre_old : List.count old (pre.map (fun s => s.name)) = 0 := by
    refine List.count_eq_zero.mpr (fun hmem => ?_)
    obtain ⟨x, hx, hxeq⟩ := List.mem_map.mp hmem
    exact hnot_old x (List.mem_append_left _ hx) hxeq
  have hpost_old : List.count old (post.map (fun s => s.name)) = 0 := by
    refine List.count_eq_zero.mpr (fun hmem => ?_)
    obtain ⟨x, hx, hxeq⟩ := List.mem_map.mp hmem
    exact hnot_old x (List.mem_append_right _ hx) hxeq
  refine ⟨hupd, ?_, ?_⟩
  · rw [hload, List.map_append, List.map_cons, List.count_append, List.count_cons_self,
      hpre_new, hpost_new]
  · rw [hload, List.map_append, List.map_cons, List.count_append,
      List.count_cons_of_ne (Ne.symm hchanged), hpre_old, hpost_old]

/-- Witness for the amended C7: rename `a` to `c` in a canonical
configuration holding `a` and `b`. -/
theorem C7_amended_witness :
    SambaShareConfig.update
        (canonicalLines
          [⟨"a".data, "/pa".data, true, false, false, [], []⟩,
           ⟨"b".data, "/pb".data, true, false, false, [], []⟩])
        "a".data ⟨"c".data, "/pa".data, true, false, false, [], []⟩ =
      .ok (canonicalLines
          [⟨"c".data, "/pa".data, true, false, false, [], []⟩,
           ⟨"b".data, "/pb".data, true, false, false, [], []⟩]) ∧
    ((SambaShareConfig.load_all (canonicalLines
          [⟨"c".data, "/pa".data, true, false, false, [], []⟩,
           ⟨"b".data, "/pb".data, true, false, false, [], []⟩])).map
        (fun s => s.name)).count "c".data = 1 ∧
    ((SambaShareConfig.load_all (canonicalLines
          [⟨"c".data, "/pa".data, true, false, false, [], []⟩,
           ⟨"b".data, "/pb".data, true, false, false, [], []⟩])).map
        (fun s => s.name)).count "a".data = 0 := by
  have h := C7_update_rename_unique []
    [⟨"b".data, "/pb".data, true, false, false, [], []⟩]
    ⟨"a".data, "/pa".data, true, false, false, [], []⟩
    ⟨"c".data, "/pa".data, true, false, false, [], []⟩
    "a".data (by decide) (by decide) (by decide) (by decide) (by decide)
    (by decide) (by decide) (by decide)
  exact h

/-- **C8, counterexample.** In a configuration whose settings container
holds a block `outer` with a *nested* inner entry keyed `victim` before
the direct-child entry keyed `victim`, `update("victim", r)` locates and
replaces the nested entry: the serialized replacement lands inside
`outer`'s block, and the direct child keyed `victim` (with
`path = "/q"`) is left untouched.  This refutes "a deeper nested entry
with a coincidentally identical key is never matched or replaced". -/
theorem C8_counterexample :
    SambaShareConfig.update
      [ "\x7b".data,
        "  services.samba = \x7b".data,
        "    settings = \x7b".data,
        "    \"outer\" = \x7b".data,
        "      path = \"/p\";".data,
        "      \"victim\" = \x7b".data,
        "      \x7d;".data,
        "    \x7d;".data,
        "    \"victim\" = \x7b".data,
        "      path = \"/q\";".data,
        "    \x7d;".data,
        "    \x7d;".data,
        "  \x7d;".data,
        "\x7d".data ]
      "victim".data ⟨"b".data, "/r".data, true, false, false, [], []⟩ =
    .ok
      [ "\x7b".data,
        "  services.samba = \x7b".data,
        "    settings = \x7b".data,
        "    \"outer\" = \x7b".data,
        "      path = \"/p\";".data,
        "    \"b\" = \x7b".data,
        "      path = \"/r\";".data,
        "      browseable = yes;".data,
        "      \"read only\" = no;".data,
        "      \"guest ok\" = no;".data,
        "      \"force user\" = \"\";".data,
        "      \"force group\" = \"\";".data,
        "    \x7d;".data,
        "    \x7d;".data,
        "    \"victim\" = \x7b".data,
        "      path = \"/q\";".data,
        "    \x7d;".data,
        "    \x7d;".data,
        "  \x7d;".data,
        "\x7d".data ] := by
  rfl

/-- **C8, amended.** The update scanner matches the first line (in file
order) that starts with a quote, contains `= {`, and carries the target
key — nested entries can therefore be matched.  For a configuration in
canonical form, whose settings container has only direct-child blocks,
the replaced span is exactly the direct child keyed `old`: every sibling
entry and all surrounding lines are unchanged. -/
theorem C8_replace_locates_direct_child_in_canonical
    (pre post : List SambaShareConfig) (rOld rNew : SambaShareConfig) (old : Str)
    (hvpre : ∀ x ∈ pre, ValidLocalShare x) (hnepre : ∀ x ∈ pre, x.name ≠ old)
    (hvold : ValidLocalShare rOld) (hold : rOld.name = old) :
    SambaShareConfig.update (canonicalLines (pre ++ rOld :: post)) old rNew =
      .ok (canonicalLines (pre ++ rNew :: post)) :=
  update_canonical old pre post rOld rNew hvpre hnepre hvold hold

/-- Witness for the amended C8 at concrete records. -/
theorem C8_amended_witness :
    SambaShareConfig.update
        (canonicalLines
          [⟨"a".data, "/pa".data, true, false, false, [], []⟩,
           ⟨"v".data, "/pv".data, true, false, false, [], []⟩])
        "v".data ⟨"w".data, "/pw".data, false, true, true, "u".data, "g".data⟩ =
      .ok (canonicalLines
          [⟨"a".data, "/pa".data, true, false, false, [], []⟩,
           ⟨"w".data, "/pw".data, false, true, true, "u".data, "g".data⟩]) :=
  C8_replace_locates_direct_child_in_canonical
    [⟨"a".data, "/pa".data, true, false, false, [], []⟩] []
    ⟨"v".data, "/pv".data, true, false, false, [], []⟩
    ⟨"w".data, "/pw".data, false, true, true, "u".data, "g".data⟩
    "v".data (by decide) (by decide) (by decide) (by decide)

/-- Helper for C10: one step of the load loop only ever appends shares
whose trimmed name is not `global`. -/
lemma loadStep_shares_sound (st : LoadState) (l : Str) (r : SambaShareConfig)
    (hr : r ∈ (loadStep st l).shares) :
    r ∈ st.shares ∨ trimC r.name ≠ "global".data := by
  unfold loadStep at hr
  simp only [] at hr
  split_ifs at hr <;>
    (try simp only [] at hr) <;>
    first
      | exact Or.inl hr
      | (rw [List.mem_append, List.mem_singleton] at hr
         rcases hr with hr | rfl
         · exact Or.inl hr
         · right
           assumption)

/-- **C10.** For every configuration line list, the local-share
extraction never returns a record whose trimmed name is `global`: the
synthesized `global` sub-block of the settings container is excluded
from the extracted share list. -/
theorem C10_global_never_extracted (lines : List Str) (r : SambaShareConfig)
    (hr : r ∈ SambaShareConfig.load_all lines) :
    trimC r.name ≠ "global".data := by
  suffices h : ∀ (L : List Str) (st : LoadState),
      (∀ x ∈ st.shares, trimC x.name ≠ "global".data) →
      ∀ x ∈ (List.foldl loadStep st L).shares, trimC x.name ≠ "global".data by
    exact h lines initLoad (by intro x hx; simp [initLoad] at hx) r hr
  intro L
  induction L with
  | nil => intro st hst; exact hst
  | cons l L' ih =>
    intro st hst x hx
    refine ih (loadStep st l) ?_ x hx
    intro y hy
    rcases loadStep_shares_sound st l y hy with h | h
    · exact hst y h
    · exact h

/-- Witness for C10: a concrete extraction containing a record, whose
name is indeed not `global`. -/
theorem C10_witness :
    (⟨"docs".data, "/srv/docs".data, true, false, true, "alice".data, "users".data⟩ :
        SambaShareConfig) ∈
      SambaShareConfig.load_all (canonicalLines
        [⟨"docs".data, "/srv/docs".data, true, false, true, "alice".data, "users".data⟩]) ∧
    trimC ("docs".data) ≠ "global".data :=
  ⟨by decide,
   C10_global_never_extracted
     (canonicalLines
       [⟨"docs".data, "/srv/docs".data, true, false, true, "alice".data, "users".data⟩])
     ⟨"docs".data, "/srv/docs".data, true, false, true, "alice".data, "users".data⟩
     (by decide)⟩

/-- **C6.** Absent properties map to their documented defaults rather
than failing extraction: for local shares `browsable` defaults to true
and `read only`/`guest ok` to false; for remote entries `uid` defaults
to `"1000"` and `gid` to `"100"` when absent from the options list; and
a remote entry whose `fsType` is not `cifs` is omitted (`none`). -/
theorem C6_extraction_defaults (n mp dev fs : Str) (props : Props) (opts : List Str) :
    ((props.lookup "browseable".data = none → (mkShare n props).browsable = true) ∧
     (props.lookup "read only".data = none → (mkShare n props).read_only = false) ∧
     (props.lookup "guest ok".data = none → (mkShare n props).guest_ok = false)) ∧
    ((∀ o ∈ opts, ¬ ("uid=".data <+: o)) →
      (mkRemoteShare mp dev "cifs".data opts).map (fun r => r.force_user) =
        some "1000".data) ∧
    ((∀ o ∈ opts, ¬ ("gid=".data <+: o)) →
      (mkRemoteShare mp dev "cifs".data opts).map (fun r => r.force_group) =
        some "100".data) ∧
    (fs ≠ "cifs".data → mkRemoteShare mp dev fs opts = none) := by
  refine ⟨⟨?_, ?_, ?_⟩, ?_, ?_, ?_⟩
  · intro h
    simp [mkShare, h]
  · intro h
    simp [mkShare, h]
  · intro h
    simp [mkShare, h]
  · intro h
    have hf : opts.find? (fun opt => decide ("uid=".data <+: opt)) = none := by
      rw [List.find?_eq_none]
      intro o ho
      simp only [decide_eq_true_eq]
      exact h o ho
    simp [mkRemoteShare, hf]
  · intro h
    have hf : opts.find? (fun opt => decide ("gid=".data <+: opt)) = none := by
      rw [List.find?_eq_none]
      intro o ho
      simp only [decide_eq_true_eq]
      exact h o ho
    simp [mkRemoteShare, hf]
  · intro h
    simp [mkRemoteShare, h]

/-- Witness for C6 at concrete inputs: empty property map and an options
list without `uid=`/`gid=` tokens; `fsType = "ext4"` is skipped. -/
theorem C6_witness :
    ((([] : Props).lookup "browseable".data = none →
        (mkShare "docs".data []).browsable = true) ∧
     (([] : Props).lookup "read only".data = none →
        (mkShare "docs".data []).read_only = false) ∧
     (([] : Props).lookup "guest ok".data = none →
        (mkShare "docs".data []).guest_ok = false)) ∧
    ((∀ o ∈ ["credentials=/etc/c".data], ¬ ("uid=".data <+: o)) →
      (mkRemoteShare "/media/x".data "//nas/x".data "cifs".data
        ["credentials=/etc/c".data]).map (fun r => r.force_user) = some "1000".data) ∧
    ((∀ o ∈ ["credentials=/etc/c".data], ¬ ("gid=".data <+: o)) →
      (mkRemoteShare "/media/x".data "//nas/x".data "cifs".data
        ["credentials=/etc/c".data]).map (fun r => r.force_group) = some "100".data) ∧
    ("ext4".data ≠ "cifs".data →
      mkRemoteShare "/media/x".data "//nas/x".data "ext4".data
        ["credentials=/etc/c".data] = none) :=
  C6_extraction_defaults "docs".data "/media/x".data "//nas/x".data "ext4".data
    [] ["credentials=/etc/c".data]

lemma hashGet_isSome (mnt : List MountedShare) (t : Str) :
    (hashGet mnt t).isSome = mnt.any (fun m => m.target = t) := by
  unfold hashGet
  cases hfind : mnt.reverse.find? (fun m => decide (m.target = t)) with
  | none =>
    have hall := List.find?_eq_none.mp hfind
    simp only [Option.isSome_none]
    symm
    rw [List.any_eq_false]
    intro x hx
    have := hall x (List.mem_reverse.mpr hx)
    simpa using this
  | some v =>
    simp only [Option.isSome_some]
    symm
    rw [List.any_eq_true]
    have hp := List.find?_some (p := fun (m : MountedShare) => decide (m.target = t)) hfind
    exact ⟨v, List.mem_reverse.mp (List.mem_of_find?_eq_some hfind), hp⟩

/-- The trailing loop of `list_all_shares` only appends, appends only
live mounts, and appends one entry per fresh target. -/
lemma extras_spec (mnt : List MountedShare) (acc : List MountedShare) :
    ∃ ext, List.foldl extStep acc mnt = acc ++ ext ∧
      (∀ e ∈ ext, e ∈ mnt) ∧
      (∀ t, acc.countP (fun s => decide (s.target = t)) = 0 →
        ext.countP (fun s => decide (s.target = t)) =
          if mnt.any (fun m => m.target = t) then 1 else 0) ∧
      (∀ t, 0 < acc.countP (fun s => decide (s.target = t)) →
        ext.countP (fun s => decide (s.target = t)) = 0) := by
  induction mnt generalizing acc with
  | nil => exact ⟨[], by simp, by simp, fun t _ => by simp, fun t _ => by simp⟩
  | cons m mnt' ih =>
    by_cases hmem : acc.any (fun s => s.target = m.target)
    · obtain ⟨ext, h1, h2, h3, h4⟩ := ih acc
      refine ⟨ext, ?_, fun e he => List.mem_cons_of_mem m (h2 e he), ?_, ?_⟩
      · rw [List.foldl_cons, extStep, if_pos hmem]
        exact h1
      · intro t ht
        have hne : m.target ≠ t := by
          rintro rfl
          obtain ⟨x, hx, hxt⟩ := List.any_eq_true.mp hmem
          have hpos : 0 < acc.countP (fun s => decide (s.target = m.target)) :=
            List.countP_pos_iff.mpr ⟨x, hx, hxt⟩
          rw [ht] at hpos
          exact Nat.lt_irrefl 0 hpos
        rw [h3 t ht]
        rw [show ((m :: mnt').any (fun x => x.target = t)) = (mnt'.any (fun x => x.target = t))
          from by simp [List.any_cons, hne]]
      · exact fun t ht => h4 t ht
    · obtain ⟨ext', h1, h2, h3, h4⟩ := ih (acc ++ [m])
      refine ⟨m :: ext', ?_, ?_, ?_, ?_⟩
      · rw [List.foldl_cons, extStep, if_neg hmem, h1]
        simp
      · intro e he
        rcases List.mem_cons.mp he with rfl | he
        · exact List.mem_cons_self _ _
        · exact List.mem_cons_of_mem m (h2 e he)
      · intro t ht
        by_cases hmt : m.target = t
        · subst hmt
          rw [List.countP_cons_of_pos _ _ (by simp)]
          rw [h4 m.target (by
            rw [List.countP_append]
            simp)]
          rw [show ((m :: mnt').any (fun x => x.target = m.target)) = true from by simp]
          rfl
        · rw [List.countP_cons_of_neg _ _ (by simp [hmt])]
          rw [h3 t (by rw [List.countP_append, ht]; simp [hmt])]
          rw [show ((m :: mnt').any (fun x => x.target = t)) = (mnt'.any (fun x => x.target = t))
            from by simp [List.any_cons, hmt]]
      · intro t ht
        have hmt : m.target ≠ t := by
          rintro rfl
          obtain ⟨x, hx, hxt⟩ := List.countP_pos_iff.mp ht
          exact hmem (List.any_eq_true.mpr ⟨x, hx, hxt⟩)
        rw [List.countP_cons_of_neg _ _ (by simp [hmt])]
        exact h4 t (by
          rw [List.countP_append]
          exact Nat.lt_of_lt_of_le ht (Nat.le_add_right _ _))

/-- **C9.** `list_all_shares` returns each configured record exactly
once and in order, with `is_mounted` true iff a live mount's target
equals the record's name, with `options` taken from the live mount when
mounted and synthesized from the configured credentials/uid/gid
otherwise; every live mount whose target matches no configured record is
appended exactly once as an extra entry, and every extra entry is an
unconfigured live mount. -/
theorem C9_list_all_shares_reconciliation (conf : List RemoteSambaShareConfig)
    (mnt : List MountedShare) :
    ∃ ext,
      list_all_shares conf mnt =
        conf.map (fun c =>
          { source := c.remote_path
            target := c.name
            fstype := c.fs_type
            options := match hashGet mnt c.name with
                       | some m => m.options
                       | none => buildConfigOptions c
            is_mounted := mnt.any (fun m => m.target = c.name) : MountedShare }) ++ ext ∧
      (∀ e ∈ ext, e ∈ mnt ∧ e.target ∉ conf.map (fun c => c.name)) ∧
      (∀ m ∈ mnt, m.target ∉ conf.map (fun c => c.name) →
        ext.countP (fun s => decide (s.target = m.target)) = 1) := by
  obtain ⟨ext, h1, h2, h3, h4⟩ := extras_spec mnt
    (conf.map (fun c =>
      { source := c.remote_path
        target := c.name
        fstype := c.fs_type
        options := match hashGet mnt c.name with
                   | some m => m.options
                   | none => buildConfigOptions c
        is_mounted := (hashGet mnt c.name).isSome : MountedShare }))
  have hview : (conf.map (fun c =>
      { source := c.remote_path
        target := c.name
        fstype := c.fs_type
        options := match hashGet mnt c.name with
                   | some m => m.options
                   | none => buildConfigOptions c
        is_mounted := (hashGet mnt c.name).isSome : MountedShare })) =
      (conf.map (fun c =>
      { source := c.remote_path
        target := c.name
        fstype := c.fs_type
        options := match hashGet mnt c.name with
                   | some m => m.options
                   | none => buildConfigOptions c
        is_mounted := mnt.any (fun m => m.target = c.name) : MountedShare })) := by
    apply List.map_congr_left
    intro c _
    rw [hashGet_isSome]
  have hcount0 : ∀ t, t ∉ conf.map (fun c => c.name) →
      (conf.map (fun c =>
        { source := c.remote_path
          target := c.name
          fstype := c.fs_type
          options := match hashGet mnt c.name with
                     | some m => m.options
                     | none => buildConfigOptions c
          is_mounted := (hashGet mnt c.name).isSome : MountedShare })).countP
        (fun s => decide (s.target = t)) = 0 := by
    intro t ht
    rw [List.countP_eq_zero]
    intro v hv
    obtain ⟨c, hc, rfl⟩ := List.mem_map.mp hv
    simp only [decide_eq_true_eq]
    intro hvt
    exact ht (List.mem_map.mpr ⟨c, hc, hvt⟩)
  have hcountPos : ∀ t, t ∈ conf.map (fun c => c.name) →
      0 < (conf.map (fun c =>
        { source := c.remote_path
          target := c.name
          fstype := c.fs_type
          options := match hashGet mnt c.name with
                     | some m => m.options
                     | none => buildConfigOptions c
          is_mounted := (hashGet mnt c.name).isSome : MountedShare })).countP
        (fun s => decide (s.target = t)) := by
    intro t ht
    obtain ⟨c, hc, rfl⟩ := List.mem_map.mp ht
    exact List.countP_pos_iff.mpr ⟨_, List.mem_map.mpr ⟨c, hc, rfl⟩, by simp⟩
  refine ⟨ext, ?_, ?_, ?_⟩
  · rw [list_all_shares]
    rw [h1, hview]
  · intro e he
    refine ⟨h2 e he, fun hmem => ?_⟩
    have h0 := h4 e.target (hcountPos e.target hmem)
    have : 0 < ext.countP (fun s => decide (s.target = e.target)) :=
      List.countP_pos_iff.mpr ⟨e, he, by simp⟩
    rw [h0] at this
    exact Nat.lt_irrefl 0 this
  · intro m hm hmem
    rw [h3 m.target (hcount0 m.target hmem)]
    rw [if_pos (List.any_eq_true.mpr ⟨m, hm, by simp⟩)]

/-- Witness for C9 at the spec's reconciliation scenario: one configured
record `/media/x` with no matching live mount. -/
theorem C9_witness :
    list_all_shares
      [⟨"/media/x".data, "//nas/x".data, "cifs".data, "/etc/c".data,
        "1000".data, "100".data⟩] [] =
      [⟨"//nas/x".data, "/media/x".data, "cifs".data,
        "credentials=/etc/c,uid=1000,gid=100".data, false⟩] := by
  obtain ⟨ext, h1, h2, _⟩ := C9_list_all_shares_reconciliation
    [⟨"/media/x".data, "//nas/x".data, "cifs".data, "/etc/c".data,
      "1000".data, "100".data⟩] []
  have hext : ext = [] := by
    cases ext with
    | nil => rfl
    | cons e ext' => exact absurd ((h2 e (by simp)).1) (by simp)
  rw [hext] at h1
  rw [h1]
  decide

lemma count_le_of_splice (c : Char) (pre ins post : Str) :
    (pre ++ post).count c ≤ (pre ++ ins ++ post).count c := by
  simp only [List.count_append]
  omega

set_option maxRecDepth 8000 in
/-- **C4, counterexample.** A configuration text with one CRLF line
ending: `SambaShareConfig::write` (which reads lines and rejoins with
`\n`) drops the carriage return, so the resulting text is not obtained
from the original by splicing new content into one position — the byte
content of an untouched region changed.  (Concretely, the original text
contains one `\r` and the result none, while any single-span insertion
preserves every original byte.) -/
theorem C4_counterexample :
    SambaShareConfig.write_text
        "\x7b\n  services.samba = \x7b\r\n    settings = \x7b\n    \x7d;\n  \x7d;\n\x7d".data
        ⟨"docs".data, "/srv/docs".data, true, false, true, "alice".data, "users".data⟩ =
      .ok (joinLines (canonicalLines
        [⟨"docs".data, "/srv/docs".data, true, false, true, "alice".data, "users".data⟩])) ∧
    ¬ ∃ pre ins post,
        "\x7b\n  services.samba = \x7b\r\n    settings = \x7b\n    \x7d;\n  \x7d;\n\x7d".data = pre ++ post ∧
        joinLines (canonicalLines
          [⟨"docs".data, "/srv/docs".data, true, false, true, "alice".data, "users".data⟩]) =
          pre ++ ins ++ post := by
  refine ⟨by rfl, ?_⟩
  rintro ⟨pre, ins, post, ht, hout⟩
  have hle := count_le_of_splice '\r' pre ins post
  rw [← ht, ← hout] at hle
  rw [show ("\x7b\n  services.samba = \x7b\r\n    settings = \x7b\n    \x7d;\n  \x7d;\n\x7d".data).count '\r'
      = 1 from rfl] at hle
  rw [show (joinLines (canonicalLines
      [⟨"docs".data, "/srv/docs".data, true, false, true, "alice".data, "users".data⟩])).count
      '\r' = 0 from rfl] at hle
  omega

/-- **C4, amended.** At the granularity the writers actually operate on
— lines for the local-share functions (whose re-joining normalizes line
endings, as the counterexample shows), bytes for the remote-share
functions — every successful insert, replace, or delete is a single-span
splice: the output is the original's prefix, the new (or no) content,
and the original's suffix, so all sibling entries and all regions
outside the targeted span are unchanged. -/
theorem C4_operations_are_single_span_splices :
    (∀ (lines : List Str) (s : SambaShareConfig) (out : List Str),
       SambaShareConfig.write lines s = .ok out →
       ∃ i block, out = lines.take i ++ block ++ lines.drop i) ∧
    (∀ (lines : List Str) (old : Str) (s : SambaShareConfig) (out : List Str),
       SambaShareConfig.update lines old s = .ok out →
       ∃ a b, out = lines.take a ++ serializeLines s ++ lines.drop (b + 1)) ∧
    (∀ (content : Str) (s : RemoteSambaShareConfig) (out : Str),
       RemoteSambaShareConfig.write content s = .ok out →
       ∃ i, out = content.take i ++ remoteEntryText s ++ content.drop i) ∧
    (∀ (content old : Str) (s : RemoteSambaShareConfig) (out : Str),
       old = s.name → RemoteSambaShareConfig.update content old s = .ok out →
       ∃ i j, out = content.take i ++ remoteReplacementText s ++ content.drop j) ∧
    (∀ (content name out : Str),
       RemoteSambaShareConfig.delete content name = .ok out →
       ∃ i j, out = content.take i ++ content.drop j) := by
  refine ⟨?_, ?_, ?_, ?_, ?_⟩
  · intro lines s out h
    unfold SambaShareConfig.write at h
    simp only [] at h
    split_ifs at h
    · cases hidx : (writeScan ⟨false, none, 0, false, false⟩ 0 lines).insert_index with
      | some idx =>
        rw [hidx] at h
        exact ⟨idx, serializeLines s, (Except.ok.inj h).symm⟩
      | none =>
        rw [hidx] at h
        exact absurd h (by simp)
    · cases hidx : lastBraceIdx lines with
      | some idx =>
        rw [hidx] at h
        exact ⟨idx, sambaSectionLines s, (Except.ok.inj h).symm⟩
      | none =>
        rw [hidx] at h
        exact absurd h (by simp)
  · intro lines old s out h
    unfold SambaShareConfig.update at h
    cases hscan : updGo old ⟨false, false, false, none, 0⟩ 0 lines with
    | some p =>
      rw [hscan] at h
      exact ⟨p.1, p.2, (Except.ok.inj h).symm⟩
    | none =>
      rw [hscan] at h
      exact absurd h (by simp)
  · intro content s out h
    unfold RemoteSambaShareConfig.write at h
    cases hidx : rfindChar '}' content with
    | some i =>
      rw [hidx] at h
      exact ⟨i, (Except.ok.inj h).symm⟩
    | none =>
      rw [hidx] at h
      exact absurd h (by simp)
  · intro content old s out hname h
    unfold RemoteSambaShareConfig.update at h
    rw [if_pos hname] at h
    cases hfind : findFS old content with
    | some p =>
      rw [hfind] at h
      exact ⟨p.1, p.2, (Except.ok.inj h).symm⟩
    | none =>
      rw [hfind] at h
      exact absurd h (by simp)
  · intro content name out h
    unfold RemoteSambaShareConfig.delete at h
    cases hfind : findFS name content with
    | some p =>
      rw [hfind] at h
      refine ⟨p.1, p.2 + ((content.drop p.2).takeWhile
        (fun c => c = '\n' ∨ c = '\r')).length, ?_⟩
      exact (Except.ok.inj h).symm
    | none =>
      rw [hfind] at h
      exact absurd h (by simp)

/-- Witness for the amended C4: the local insert on the empty canonical
configuration is a single-span splice. -/
theorem C4_amended_witness :
    ∃ i block,
      canonicalLines
        [⟨"docs".data, "/srv/docs".data, true, false, true, "alice".data, "users".data⟩] =
      (canonicalLines []).take i ++ block ++ (canonicalLines []).drop i :=
  C4_operations_are_single_span_splices.1 (canonicalLines [])
    ⟨"docs".data, "/srv/docs".data, true, false, true, "alice".data, "users".data⟩
    (canonicalLines
      [⟨"docs".data, "/srv/docs".data, true, false, true, "alice".data, "users".data⟩])
    rfl

/-- Witness for C1 at a concrete input (`"server/share"` lacks the
leading `//`). -/
theorem C1_witness :
    (∃ e, (mount_share ⟨[], true, true, true, true, "/tmp/c".data, true, true, []⟩
      "server/share".data "/mnt/x".data "u".data "p".data ⟨"1000".data, "100".data, []⟩).1
        = .error e) ∧
    ∀ u m o, MountEvent.runMount u m o ∉
      (mount_share ⟨[], true, true, true, true, "/tmp/c".data, true, true, []⟩
        "server/share".data "/mnt/x".data "u".data "p".data ⟨"1000".data, "100".data, []⟩).2 :=
  C1_mount_validation_blocks_os_call _ _ _ _ _ _ (by left; decide)

/-- **C2, counterexample.** A `mount_share` call in which the temporary
credentials file is created on disk (`fs::write` succeeds) but
`fs::set_permissions` then fails: the call returns with the file still
existing — no `removeCreds` effect ever happens, because the
`CredentialsFile` guard was never constructed and its `Drop` never runs.
This refutes the claim that the file is removed on *every* exit path
after its creation. -/
theorem C2_counterexample :
    MountEvent.createCreds "/tmp/c".data ∈
      (mount_share ⟨[], true, true, true, false, "/tmp/c".data, true, true, []⟩
        "//server/share".data "/mnt/x".data "u".data "p".data
        ⟨"1000".data, "100".data, []⟩).2 ∧
    MountEvent.removeCreds "/tmp/c".data ∉
      (mount_share ⟨[], true, true, true, false, "/tmp/c".data, true, true, []⟩
        "//server/share".data "/mnt/x".data "u".data "p".data
        ⟨"1000".data, "100".data, []⟩).2 ∧
    (∃ e, (mount_share ⟨[], true, true, true, false, "/tmp/c".data, true, true, []⟩
        "//server/share".data "/mnt/x".data "u".data "p".data
        ⟨"1000".data, "100".data, []⟩).1 = .error e) := by
  refine ⟨by decide, by decide, ⟨_, rfl⟩⟩

/-- **C2, amended.** Whenever the credentials-file guard is successfully
constructed — `fs::write` has created the file *and* `fs::set_permissions`
has succeeded — the file is removed before `mount_share` returns, on
every exit path (spawn failure, mount failure, and success). -/
theorem C2_creds_file_removed_after_guard
    (env : MountEnv) (url mp user pass : Str) (opts : MountOptions)
    (hperm : env.setPermsOk = true) (q : Str)
    (hc : MountEvent.createCreds q ∈ (mount_share env url mp user pass opts).2) :
    MountEvent.removeCreds q ∈ (mount_share env url mp user pass opts).2 := by
  unfold mount_share at hc ⊢
  cases hvu : validate_remote_url url with
  | error e => simp only [hvu] at hc; simp at hc
  | ok u =>
    cases u
    simp only [hvu] at hc ⊢
    cases hvp : validate_mount_point mp with
    | error e => simp only [hvp] at hc; simp at hc
    | ok u =>
      cases u
      simp only [hvp] at hc ⊢
      by_cases hm : is_mounted env mp <;>
        by_cases hmpe : env.mountPointExists <;>
        by_cases hcdo : env.createDirOk <;>
        by_cases hw : env.writeCredsOk <;>
        by_cases hs : env.spawnOk <;>
        by_cases hx : env.mountExitOk <;>
        simp_all [credentialsFile_new]

/-- Witness for the amended C2 at a concrete input (mount command exits
non-zero; the credentials file is created and removed). -/
theorem C2_amended_witness :
    MountEvent.createCreds "/tmp/c".data ∈
      (mount_share ⟨[], true, true, true, true, "/tmp/c".data, true, false, "busy".data⟩
        "//server/share".data "/mnt/x".data "u".data "p".data
        ⟨"1000".data, "100".data, []⟩).2 ∧
    MountEvent.removeCreds "/tmp/c".data ∈
      (mount_share ⟨[], true, true, true, true, "/tmp/c".data, true, false, "busy".data⟩
        "//server/share".data "/mnt/x".data "u".data "p".data
        ⟨"1000".data, "100".data, []⟩).2 :=
  ⟨by decide,
   C2_creds_file_removed_after_guard _ _ _ _ _ _ rfl _ (by decide)⟩

end SambaShares
